import Mathlib

/-!
# Selective-Repeat sender and receiver of `sr.c`

A shallow embedding of `src/sr.c`: the checksum codec (`ComputeChecksum`,
`IsCorrupted`), the sender entity A (`A_output`, `A_input`, `A_timerinterrupt`,
`A_init`) and the receiver entity B (`B_input`, `B_init`).

Modelling conventions.

* The C globals of an entity are gathered in one record (`Sender`, `Receiver`)
  that every handler takes and returns.
* Calls into the emulator (`tolayer3`, `tolayer5`, `starttimer`, `stoptimer`)
  are recorded, in call order, in the list of `Event`s a handler returns.
  `printf` tracing is not modelled.
* C arrays are fixed-size arrays `Arr α n`; an index is an `Int`, as in C.  An
  access outside `[0, n)` is undefined behaviour in C and makes the handler
  return `Res.outOfBounds`.
* `int` values are mathematical integers.  The checksum works on 32-bit
  two's-complement bit patterns (`u32`, `i32`).  `char` is a signed 8-bit type
  that is sign-extended when promoted to `int`.  Counters are not wrapped.
-/

namespace SR

set_option maxRecDepth 100000

/-! ## Results, arrays -/

/-- Result of running a handler: a value, an out-of-bounds array access
(undefined behaviour in C), or an exhausted iteration budget of a loop. -/
inductive Res (α : Type) where
  | ok (a : α)
  | outOfBounds
  | outOfFuel
  deriving DecidableEq

/-- Sequencing of results: the first failure is the result. -/
def Res.bind {α β : Type} (x : Res α) (f : α → Res β) : Res β :=
  match x with
  | .ok a => f a
  | .outOfBounds => .outOfBounds
  | .outOfFuel => .outOfFuel

instance : Monad Res where
  pure := Res.ok
  bind := Res.bind

/-- A C array of exactly `n` cells. -/
def Arr (α : Type) (n : Nat) : Type := { l : List α // l.length = n }

instance {α : Type} {n : Nat} [DecidableEq α] : DecidableEq (Arr α n) :=
  inferInstanceAs (DecidableEq { l : List α // l.length = n })

/-- The array whose `n` cells all hold `x`. -/
def Arr.fill {α : Type} (n : Nat) (x : α) : Arr α n :=
  ⟨List.replicate n x, List.length_replicate n x⟩

/-- Array read `a[i]` with a C `int` index. -/
def Arr.rd {α : Type} {n : Nat} (a : Arr α n) (i : Int) : Res α :=
  if 0 ≤ i then
    match a.val[i.toNat]? with
    | some x => .ok x
    | none => .outOfBounds
  else .outOfBounds

/-- Array write `a[i] = x` with a C `int` index. -/
def Arr.wr {α : Type} {n : Nat} (a : Arr α n) (i : Int) (x : α) : Res (Arr α n) :=
  if 0 ≤ i ∧ i < n then
    .ok ⟨a.val.set i.toNat x, by rw [List.length_set]; exact a.property⟩
  else .outOfBounds

/-- The array `a` with cell `i` replaced by `x` (unchanged when `i` is not an
index of `a`). -/
def Arr.put {α : Type} {n : Nat} (a : Arr α n) (i : Nat) (x : α) : Arr α n :=
  ⟨a.val.set i x, by rw [List.length_set]; exact a.property⟩

/-! ## Constants of `sr.c` -/

/-- Round trip time handed to `starttimer` (`#define RTT 16.0`). -/
abbrev RTT : Nat := 16

/-- Maximum number of buffered unacknowledged packets (`#define WINDOWSIZE 6`). -/
abbrev WINDOWSIZE : Nat := 6

/-- Size of the sequence space (`#define SEQSPACE 12`). -/
abbrev SEQSPACE : Nat := 12

/-- Filler of unused header fields (`#define NOTINUSE (-1)`). -/
abbrev NOTINUSE : Int := -1

/-! ## Packets, messages, emulator calls -/

/-- A C `char`, kept as its 8-bit pattern. -/
abbrev Byte : Type := Fin 256

/-- Value of a `char` promoted to `int`: sign extension of the 8-bit pattern. -/
def charVal (b : Byte) : Int :=
  if b.val < 128 then (b.val : Int) else (b.val : Int) - 256

/-- Modelled from the spec: `struct pkt` of `emulator.h`, which is not among the
sources: sequence number, acknowledgment number, checksum, 20-byte payload. -/
structure Pkt where
  seqnum : Int
  acknum : Int
  checksum : Int
  payload : Arr Byte 20
  deriving DecidableEq

/-- Modelled from the spec: `struct msg` of `emulator.h`, which is not among the
sources: 20 bytes of application data. -/
structure Msg where
  data : Arr Byte 20
  deriving DecidableEq

/-- Modelled from the spec: the entity constants `A` and `B` of `emulator.h`. -/
inductive Entity where
  | A
  | B
  deriving DecidableEq

/-- Modelled from the spec: the emulator services called by the handlers. -/
inductive Event where
  | tolayer3 (who : Entity) (p : Pkt)
  | tolayer5 (who : Entity) (data : Arr Byte 20)
  | starttimer (who : Entity) (increment : Nat)
  | stoptimer (who : Entity)
  deriving DecidableEq

/-! ## Checksum codec -/

/-- Bit pattern of an `int` as a 32-bit unsigned number. -/
def u32 (x : Int) : Nat := (x % 4294967296).toNat

/-- The `int` with a given 32-bit pattern (two's complement). -/
def i32 (n : Nat) : Int :=
  if n % 4294967296 < 2147483648 then ((n % 4294967296 : Nat) : Int)
  else ((n % 4294967296 : Nat) : Int) - 4294967296

/-- C `a ^ b` on `int`. -/
def xor32 (a b : Int) : Int := i32 (u32 a ^^^ u32 b)

/-- C `a << s` on `int`, computed on the bit pattern. -/
def shl32 (a : Int) (s : Nat) : Int := i32 (u32 a <<< s)

/-- The checksum of a packet (`ComputeChecksum`): the sequence number, the
acknowledgment number and every payload byte, byte `i` shifted left by
`(i % 4) * 8` bits, all combined by exclusive or. -/
def ComputeChecksum (packet : Pkt) : Int :=
  let checksum : Int := 0
  let checksum := xor32 checksum packet.seqnum
  let checksum := xor32 checksum packet.acknum
  (List.range 20).foldl
    (fun checksum i =>
      xor32 checksum (shl32 (charVal (packet.payload.val.getD i 0)) ((i % 4) * 8)))
    checksum

/-- A packet is corrupted when its checksum field differs from the checksum
computed over its other fields (`IsCorrupted`). -/
def IsCorrupted (packet : Pkt) : Bool :=
  if packet.checksum = ComputeChecksum packet then false else true

/-- The integer `x` is a value of the 32-bit C type `int`. -/
def IsInt32 (x : Int) : Prop := -2147483648 ≤ x ∧ x < 2147483648

instance (x : Int) : Decidable (IsInt32 x) :=
  inferInstanceAs (Decidable (-2147483648 ≤ x ∧ x < 2147483648))

/-- Contribution of payload byte `b` at offset `i` to the checksum, as a 32-bit
pattern. -/
def byteTerm (i : Nat) (b : Byte) : Nat := u32 (shl32 (charVal b) ((i % 4) * 8))

/-! ## Sender (A) -/

/-- The sender's globals; the three counters are emulator globals the sender
increments. -/
structure Sender where
  buffer : Arr Pkt WINDOWSIZE
  windowfirst : Int
  windowlast : Int
  windowcount : Int
  A_nextseqnum : Int
  acked : Arr Bool WINDOWSIZE
  window_full : Int
  new_ACKs : Int
  packets_resent : Int
  deriving DecidableEq

/-- The all-zero packet of zero-initialised static storage. -/
def zeroPkt : Pkt :=
  { seqnum := 0, acknum := 0, checksum := 0, payload := Arr.fill 20 0 }

/-- Static storage of the sender before `A_init` runs: all zero. -/
def senderZero : Sender :=
  { buffer := Arr.fill WINDOWSIZE zeroPkt
    windowfirst := 0
    windowlast := 0
    windowcount := 0
    A_nextseqnum := 0
    acked := Arr.fill WINDOWSIZE false
    window_full := 0
    new_ACKs := 0
    packets_resent := 0 }

/-- Initialisation of the sender (`A_init`). -/
def A_init (s : Sender) : Sender :=
  { s with A_nextseqnum := 0, windowfirst := 0, windowlast := -1, windowcount := 0 }

/-- The packet `A_output` builds for a message when the next sequence number is
`seq`. -/
def mkDataPkt (seq : Int) (message : Msg) : Pkt :=
  let sendpkt : Pkt :=
    { seqnum := seq, acknum := NOTINUSE, checksum := 0, payload := message.data }
  { sendpkt with checksum := ComputeChecksum sendpkt }

/-- A message arrives from layer 5 (`A_output`). -/
def A_output (s : Sender) (message : Msg) : Res (Sender × List Event) :=
  if s.windowcount < WINDOWSIZE then do
    let sendpkt := mkDataPkt s.A_nextseqnum message
    let windowlast := Int.tmod (s.windowlast + 1) WINDOWSIZE
    let buffer ← s.buffer.wr windowlast sendpkt
    let windowcount := s.windowcount + 1
    let timer := if windowcount = 1 then [Event.starttimer .A RTT] else []
    let A_nextseqnum := Int.tmod (s.A_nextseqnum + 1) SEQSPACE
    pure ({ s with buffer := buffer, windowlast := windowlast, windowcount := windowcount,
                   A_nextseqnum := A_nextseqnum },
          Event.tolayer3 .A sendpkt :: timer)
  else
    pure ({ s with window_full := s.window_full + 1 }, [])

/-- The slide loop of `A_input`,
`while (windowcount > 0) { if (!acked[buffer[windowfirst].seqnum]) break;
windowfirst = (windowfirst + 1) % WINDOWSIZE; windowcount--; }`,
for a positive `windowcount` given as a natural number; it returns the new
`windowfirst` and `windowcount`. -/
def slideLoop (buffer : Arr Pkt WINDOWSIZE) (acked : Arr Bool WINDOWSIZE) :
    Nat → Int → Res (Int × Int)
  | 0, windowfirst => .ok (windowfirst, 0)
  | windowcount + 1, windowfirst => do
    let first ← buffer.rd windowfirst
    let a ← acked.rd first.seqnum
    if !a then pure (windowfirst, ((windowcount + 1 : Nat) : Int))
    else slideLoop buffer acked windowcount (Int.tmod (windowfirst + 1) WINDOWSIZE)

/-- A packet arrives from layer 3 at the sender (`A_input`). -/
def A_input (s : Sender) (packet : Pkt) : Res (Sender × List Event) :=
  if !IsCorrupted packet then do
    let a ← s.acked.rd packet.acknum
    if !a then do
      let acked ← s.acked.wr packet.acknum true
      let s1 : Sender := { s with new_ACKs := s.new_ACKs + 1, acked := acked }
      let first ← s1.buffer.rd s1.windowfirst
      if packet.acknum = first.seqnum then do
        let (windowfirst, windowcount) ←
          if s1.windowcount > 0 then
            slideLoop s1.buffer s1.acked s1.windowcount.toNat s1.windowfirst
          else pure (s1.windowfirst, s1.windowcount)
        let timer := if windowcount > 0 then [Event.starttimer .A RTT] else []
        pure ({ s1 with windowfirst := windowfirst, windowcount := windowcount },
              Event.stoptimer .A :: timer)
      else pure (s1, [])
    else pure (s, [])
  else pure (s, [])

/-- The sender's timer goes off (`A_timerinterrupt`). -/
def A_timerinterrupt (s : Sender) : Res (Sender × List Event) := do
  let first ← s.buffer.rd s.windowfirst
  let timer := if s.windowcount > 0 then [Event.starttimer .A RTT] else []
  pure ({ s with packets_resent := s.packets_resent + 1 }, Event.tolayer3 .A first :: timer)

/-- One call of a sender handler. -/
inductive SenderCall where
  | output (message : Msg)
  | input (packet : Pkt)
  | timerinterrupt

/-- Run one sender handler. -/
def senderStep (s : Sender) : SenderCall → Res (Sender × List Event)
  | .output message => A_output s message
  | .input packet => A_input s packet
  | .timerinterrupt => A_timerinterrupt s

/-- Run a sequence of sender handler calls, collecting the emulator calls. -/
def senderRun : Sender → List SenderCall → Res (Sender × List Event)
  | s, [] => .ok (s, [])
  | s, c :: cs => do
    let (s1, e1) ← senderStep s c
    let (s2, e2) ← senderRun s1 cs
    pure (s2, e1 ++ e2)

/-- The sequence number `a` belongs to one of the `windowcount` packets in the
window, the slots `windowfirst`, `windowfirst + 1`, ... taken mod `WINDOWSIZE`. -/
def inFlight (s : Sender) (a : Int) : Prop :=
  ∃ k : Nat, (k : Int) < s.windowcount ∧
    ∃ q, s.buffer.rd ((s.windowfirst + k) % WINDOWSIZE) = .ok q ∧ q.seqnum = a

/-- The message of 20 equal bytes `c`. -/
def fillMsg (c : Byte) : Msg := ⟨Arr.fill 20 c⟩

/-- The sender after `A_init` on zeroed storage and one `A_output` of twenty
`'a'`: packet 0 is in flight. -/
def senderOneInFlight : Sender :=
  { A_init senderZero with
    buffer := ⟨[mkDataPkt 0 (fillMsg 97), zeroPkt, zeroPkt, zeroPkt, zeroPkt, zeroPkt], rfl⟩
    windowlast := 0
    windowcount := 1
    A_nextseqnum := 1 }

/-- The sender state a sequence of handler calls leads to from `A_init` on zeroed
storage, when every call returns. -/
def senderAfter (calls : List SenderCall) : Option Sender :=
  match senderRun (A_init senderZero) calls with
  | .ok (s, _) => some s
  | _ => none

/-- Message `k` as the emulator feeds it: twenty times the letter
`'a' + k mod 26`. -/
def letterMsg (k : Nat) : Msg := fillMsg (Fin.ofNat (97 + k % 26))

/-- The sender after `A_init` on zeroed storage and six accepted messages: the
packets 0 to 5 fill the window. -/
def sixInFlight (m0 m1 m2 m3 m4 m5 : Msg) : Sender :=
  { A_init senderZero with
    buffer := ⟨[mkDataPkt 0 m0, mkDataPkt 1 m1, mkDataPkt 2 m2, mkDataPkt 3 m3,
      mkDataPkt 4 m4, mkDataPkt 5 m5], rfl⟩
    windowlast := 5
    windowcount := 6
    A_nextseqnum := 6 }

/-- The window was filled with the packets 0 to 5, packet `i` in slot `i`, and has
slid past the first `f` of them: these are marked acknowledged and packet `f` is
not. -/
def SlidPast (s : Sender) (f : Nat) : Prop :=
  f ≤ 6 ∧ s.windowfirst = ((f % 6 : Nat) : Int) ∧ s.windowcount = 6 - (f : Int) ∧
  s.windowlast = 5 ∧ s.A_nextseqnum = 6 ∧
  (∀ i : Nat, i < 6 → ∃ q, s.buffer.rd (i : Int) = .ok q ∧ q.seqnum = (i : Int)) ∧
  (∀ i : Nat, i < f → s.acked.rd (i : Int) = .ok true) ∧
  (f < 6 → s.acked.rd (f : Int) = .ok false)

/-- Six messages submitted back to back. -/
def sixSent : List SenderCall :=
  [.output (letterMsg 0), .output (letterMsg 1), .output (letterMsg 2),
   .output (letterMsg 3), .output (letterMsg 4), .output (letterMsg 5)]

/-- The sender's timer as a boolean, after a list of emulator calls: `starttimer`
sets it, `stoptimer` clears it. -/
def timerAfter : Bool → List Event → Bool
  | t, [] => t
  | _, .starttimer _ _ :: es => timerAfter true es
  | _, .stoptimer _ :: es => timerAfter false es
  | t, _ :: es => timerAfter t es

/-- No `starttimer` in the list of emulator calls is made while the timer is
running. -/
def startsWhenStopped : Bool → List Event → Bool
  | _, [] => true
  | t, .starttimer _ _ :: es => !t && startsWhenStopped true es
  | _, .stoptimer _ :: es => startsWhenStopped false es
  | t, _ :: es => startsWhenStopped t es

/-- Sender states with the state of the timer, reached from `A_init` (timer not
running) by handler calls that return; `A_timerinterrupt` is called only while
the timer is running, and the firing clears the timer before the handler
runs. -/
inductive TimedReach : Sender → Bool → Prop where
  | init (s0 : Sender) : TimedReach (A_init s0) false
  | output {s s1 : Sender} {t : Bool} {evs : List Event} (message : Msg) :
      TimedReach s t → A_output s message = .ok (s1, evs) →
      TimedReach s1 (timerAfter t evs)
  | input {s s1 : Sender} {t : Bool} {evs : List Event} (packet : Pkt) :
      TimedReach s t → A_input s packet = .ok (s1, evs) →
      TimedReach s1 (timerAfter t evs)
  | timerinterrupt {s s1 : Sender} {evs : List Event} :
      TimedReach s true → A_timerinterrupt s = .ok (s1, evs) →
      TimedReach s1 (timerAfter false evs)

/-! ## Receiver (B) -/

/-- The receiver's globals; `packets_received` is an emulator counter the
receiver increments. -/
structure Receiver where
  expectedseqnum : Int
  pkt_r : Arr Pkt SEQSPACE
  pkt_r_acked : Arr Bool SEQSPACE
  packets_received : Int
  deriving DecidableEq

/-- Static storage of the receiver before `B_init` runs: all zero. -/
def receiverZero : Receiver :=
  { expectedseqnum := 0
    pkt_r := Arr.fill SEQSPACE zeroPkt
    pkt_r_acked := Arr.fill SEQSPACE false
    packets_received := 0 }

/-- Initialisation of the receiver (`B_init`). -/
def B_init (r : Receiver) : Receiver :=
  { r with expectedseqnum := 0 }

/-- The acknowledgment `B_input` builds for an inbound packet: `acknum` is the
packet's `seqnum`, `seqnum` is 0, the payload is 20 times `'.'`. -/
def mkAckPkt (packet : Pkt) : Pkt :=
  let sendpkt : Pkt :=
    { seqnum := 0, acknum := packet.seqnum, checksum := 0, payload := Arr.fill 20 46 }
  { sendpkt with checksum := ComputeChecksum sendpkt }

/-- The drain loop of `B_input`,
`while (pkt_r_acked[expectedseqnum]) { tolayer5(B, pkt_r[expectedseqnum].payload);
pkt_r_acked[expectedseqnum] = false;
expectedseqnum = (expectedseqnum + 1) % SEQSPACE; }`,
with a budget of `fuel` executions of the body; it returns the new state and
the `tolayer5` calls in order. -/
def drainLoop : Nat → Receiver → Res (Receiver × List Event)
  | fuel, r => do
    let flag ← r.pkt_r_acked.rd r.expectedseqnum
    if flag then
      match fuel with
      | 0 => .outOfFuel
      | fuel + 1 => do
        let stored ← r.pkt_r.rd r.expectedseqnum
        let flags ← r.pkt_r_acked.wr r.expectedseqnum false
        let (r2, evs) ← drainLoop fuel
          { r with pkt_r_acked := flags,
                   expectedseqnum := Int.tmod (r.expectedseqnum + 1) SEQSPACE }
        pure (r2, Event.tolayer5 .B stored.payload :: evs)
    else pure (r, [])

/-- A packet arrives from layer 3 at the receiver (`B_input`).  The drain loop
gets a budget of `SEQSPACE` iterations. -/
def B_input (r : Receiver) (packet : Pkt) : Res (Receiver × List Event) :=
  if !IsCorrupted packet then do
    let r1 : Receiver := { r with packets_received := r.packets_received + 1 }
    let flag ← r1.pkt_r_acked.rd packet.seqnum
    let r2 ←
      if !flag then do
        let cache ← r1.pkt_r.wr packet.seqnum packet
        let flags ← r1.pkt_r_acked.wr packet.seqnum true
        pure { r1 with pkt_r := cache, pkt_r_acked := flags }
      else pure r1
    let sendpkt := mkAckPkt packet
    let (r3, evs) ← drainLoop SEQSPACE r2
    pure (r3, Event.tolayer3 .B sendpkt :: evs)
  else
    pure (r, [Event.tolayer3 .B (mkAckPkt packet)])

/-- Run `B_input` on a sequence of arriving packets, collecting the emulator
calls. -/
def receiverRun : Receiver → List Pkt → Res (Receiver × List Event)
  | r, [] => .ok (r, [])
  | r, p :: ps => do
    let (r1, e1) ← B_input r p
    let (r2, e2) ← receiverRun r1 ps
    pure (r2, e1 ++ e2)

/-- The payloads handed to layer 5, in order. -/
def delivered : List Event → List (Arr Byte 20)
  | [] => []
  | .tolayer5 _ data :: es => data :: delivered es
  | _ :: es => delivered es

/-- The payloads a run handed to layer 5, when the run returns. -/
def deliveredBy (x : Res (Receiver × List Event)) : Option (List (Arr Byte 20)) :=
  match x with
  | .ok (_, evs) => some (delivered evs)
  | _ => none

/-- The packets handed to layer 3, in order. -/
def sent : List Event → List Pkt
  | [] => []
  | .tolayer3 _ p :: es => p :: sent es
  | _ :: es => sent es

/-- An arrival at the receiver: a copy of packet `k` of the sender's stream, or
any other packet. -/
inductive Arrival where
  | copy (k : Nat)
  | noise (p : Pkt)

/-- The packet of an arrival, for the stream `strm`. -/
def Arrival.pkt (strm : Nat → Pkt) : Arrival → Pkt
  | .copy k => strm k
  | .noise p => p

/-- A sender stream: packet `k` has `seqnum` `k mod SEQSPACE` and a correct
checksum. -/
def IsStream (strm : Nat → Pkt) : Prop :=
  ∀ k, (strm k).seqnum = ((k % SEQSPACE : Nat) : Int) ∧ IsCorrupted (strm k) = false

/-- The first index from `b` on that is not in `seen`, looking at most `fuel`
indices ahead. -/
def nextBase (seen : List Nat) : Nat → Nat → Nat
  | 0, b => b
  | fuel + 1, b => if b ∈ seen then nextBase seen fuel (b + 1) else b

/-- The arrivals respect a receive window of `SEQSPACE` packets: with `seen` the
indices of the copies that arrived so far and `b` the first index that has not
arrived, every copy that arrives is of a packet `k` with `b ≤ k < b + SEQSPACE`,
and every other arrival is a corrupted packet. -/
def inWindow : List Nat → Nat → List Arrival → Bool
  | _, _, [] => true
  | seen, b, .noise p :: rest => IsCorrupted p && inWindow seen b rest
  | seen, b, .copy k :: rest =>
    decide (b ≤ k) && decide (k < b + SEQSPACE) &&
      inWindow (k :: seen) (nextBase (k :: seen) SEQSPACE b) rest

/-- The receiver state `r` caches exactly the stream packets of `seen` from index
`b` on: `expectedseqnum` is `b mod SEQSPACE`, and for `i < SEQSPACE` the slot
`(b + i) mod SEQSPACE` is marked received if and only if `b + i` is in `seen`,
and then holds packet `b + i` of the stream. -/
def Caches (strm : Nat → Pkt) (r : Receiver) (seen : List Nat) (b : Nat) : Prop :=
  r.expectedseqnum = ((b % SEQSPACE : Nat) : Int) ∧
  ∀ i : Nat, i < SEQSPACE →
    r.pkt_r_acked.rd (((b + i) % SEQSPACE : Nat) : Int) = .ok (decide (b + i ∈ seen)) ∧
    (b + i ∈ seen → r.pkt_r.rd (((b + i) % SEQSPACE : Nat) : Int) = .ok (strm (b + i)))

/-- A stream as the emulator feeds it: message `k` is twenty times the letter
`'a' + k mod 26`, packet `k` has sequence number `k mod SEQSPACE`. -/
def letterStream (k : Nat) : Pkt :=
  mkDataPkt ((k % SEQSPACE : Nat) : Int) (fillMsg (Fin.ofNat (97 + k % 26)))

/-- Packet 0 arrives twice (a retransmission after a lost acknowledgment), then
packets 1 to 11. -/
def duplicateThenRest : List Arrival :=
  [.copy 0, .copy 0, .copy 1, .copy 2, .copy 3, .copy 4, .copy 5, .copy 6, .copy 7,
   .copy 8, .copy 9, .copy 10, .copy 11]

/-- Packet 2 arrives first, then packet 0, a second copy of packet 2, a packet
whose checksum was overwritten, and packet 1. -/
def reorderedArrivals : List Arrival :=
  [.copy 2, .copy 0, .copy 2, .noise { letterStream 5 with checksum := 0 }, .copy 1]

/-- Packet 0 of the letter stream with payload bytes 0 and 4 overwritten by `'z'`
and the checksum left as stamped. -/
def twoBytesOverwritten : Pkt :=
  { letterStream 0 with payload := ((letterStream 0).payload.put 0 122).put 4 122 }

/-- The receiver after `B_init` on zeroed storage and the arrival of packet 1 of
the letter stream: packet 1 is cached, nothing is delivered. -/
def receiverOneCached : Receiver :=
  { B_init receiverZero with
    pkt_r := ⟨[zeroPkt, letterStream 1, zeroPkt, zeroPkt, zeroPkt, zeroPkt, zeroPkt, zeroPkt,
      zeroPkt, zeroPkt, zeroPkt, zeroPkt], rfl⟩
    pkt_r_acked := ⟨[false, true, false, false, false, false, false, false, false, false,
      false, false], rfl⟩
    packets_received := 1 }

/-- The valid acknowledgment the receiver builds for sequence number `a`. -/
def ackFor (a : Int) : Pkt := mkAckPkt { zeroPkt with seqnum := a }

/-- Six messages, the acknowledgment of packet 0, then a seventh message: the
window holds packets 1 to 6. -/
def slideOneThenSend : List SenderCall :=
  sixSent ++ [.input (ackFor 0), .output (letterMsg 6)]

/-- Six messages, the acknowledgments of packets 0 to 5, then a seventh message:
the window holds packet 6 only. -/
def drainThenSend : List SenderCall :=
  sixSent ++ [.input (ackFor 0), .input (ackFor 1), .input (ackFor 2), .input (ackFor 3),
    .input (ackFor 4), .input (ackFor 5), .output (letterMsg 6)]

/-! ## Basic facts about results and arrays -/

@[simp]
theorem Res.ok_bind {α β : Type} (a : α) (f : α → Res β) : (Res.ok a >>= f) = f a := rfl

@[simp]
theorem Res.oob_bind {α β : Type} (f : α → Res β) :
    (Res.outOfBounds >>= f) = Res.outOfBounds := rfl

@[simp]
theorem Res.fuel_bind {α β : Type} (f : α → Res β) :
    (Res.outOfFuel >>= f) = Res.outOfFuel := rfl

@[simp]
theorem Res.pure_eq {α : Type} (a : α) : (pure a : Res α) = Res.ok a := rfl

theorem Res.bind_eq_ok {α β : Type} (x : Res α) (f : α → Res β) (b : β) :
    (x >>= f) = Res.ok b ↔ ∃ a, x = Res.ok a ∧ f a = Res.ok b := by
  cases x <;> simp

theorem Arr.rd_eq_ok {α : Type} {n : Nat} (a : Arr α n) (i : Int) (x : α) :
    a.rd i = .ok x ↔ 0 ≤ i ∧ a.val[i.toNat]? = some x := by
  unfold Arr.rd
  by_cases h : 0 ≤ i
  · simp only [h, if_true, true_and]
    cases hx : a.val[i.toNat]? <;> simp
  · simp [h]

theorem Arr.rd_ne_fuel {α : Type} {n : Nat} (a : Arr α n) (i : Int) :
    a.rd i ≠ .outOfFuel := by
  unfold Arr.rd
  by_cases h : 0 ≤ i
  · simp only [h, if_true]
    cases hx : a.val[i.toNat]? <;> simp
  · simp [h]

theorem Arr.rd_in {α : Type} {n : Nat} (a : Arr α n) (i : Int) (h0 : 0 ≤ i) (h1 : i < n) :
    ∃ x, a.rd i = .ok x := by
  have hlt : i.toNat < a.val.length := by rw [a.property]; omega
  exact ⟨a.val[i.toNat], by rw [Arr.rd_eq_ok]; exact ⟨h0, List.getElem?_eq_getElem hlt⟩⟩

theorem Arr.rd_ok_bounds {α : Type} {n : Nat} (a : Arr α n) (i : Int) (x : α)
    (h : a.rd i = .ok x) : 0 ≤ i ∧ i < n := by
  rw [Arr.rd_eq_ok] at h
  obtain ⟨h0, h1⟩ := h
  have := (List.getElem?_eq_some_iff.mp h1).1
  rw [a.property] at this
  omega

theorem Arr.wr_eq_ok {α : Type} {n : Nat} (a : Arr α n) (i : Int) (x : α) (b : Arr α n) :
    a.wr i x = .ok b ↔ (0 ≤ i ∧ i < n) ∧ b.val = a.val.set i.toNat x := by
  unfold Arr.wr
  by_cases h : 0 ≤ i ∧ i < n
  · simp only [h, and_self, if_true, true_and, Res.ok.injEq]
    constructor
    · intro e; rw [← e]
    · intro e; exact Subtype.ext e.symm
  · simp [h]

theorem Arr.wr_in {α : Type} {n : Nat} (a : Arr α n) (i : Int) (x : α) (h0 : 0 ≤ i)
    (h1 : i < n) : ∃ b, a.wr i x = .ok b := by
  unfold Arr.wr
  rw [if_pos ⟨h0, h1⟩]
  exact ⟨_, rfl⟩

theorem Arr.rd_wr_same {α : Type} {n : Nat} (a b : Arr α n) (i : Int) (x : α)
    (h : a.wr i x = .ok b) : b.rd i = .ok x := by
  rw [Arr.wr_eq_ok] at h
  obtain ⟨⟨h0, h1⟩, hb⟩ := h
  rw [Arr.rd_eq_ok, hb]
  refine ⟨h0, ?_⟩
  have hlt : i.toNat < a.val.length := by rw [a.property]; omega
  exact List.getElem?_set_self hlt

theorem Arr.rd_wr_other {α : Type} {n : Nat} (a b : Arr α n) (i j : Int) (x : α)
    (h : a.wr i x = .ok b) (hij : j ≠ i) : b.rd j = a.rd j := by
  rw [Arr.wr_eq_ok] at h
  obtain ⟨⟨h0, h1⟩, hb⟩ := h
  unfold Arr.rd
  by_cases hj : 0 ≤ j
  · have hne : i.toNat ≠ j.toNat := by omega
    simp only [hj, if_true, hb]
    rw [List.getElem?_set_ne hne]
  · simp [hj]

/-! ## The codec on freshly built packets -/

theorem ComputeChecksum_checksum (p : Pkt) (c : Int) :
    ComputeChecksum { p with checksum := c } = ComputeChecksum p := rfl

theorem IsCorrupted_mkDataPkt (seq : Int) (message : Msg) :
    IsCorrupted (mkDataPkt seq message) = false := by
  simp [IsCorrupted, mkDataPkt, ComputeChecksum]

theorem IsCorrupted_mkAckPkt (packet : Pkt) : IsCorrupted (mkAckPkt packet) = false := by
  simp [IsCorrupted, mkAckPkt, ComputeChecksum]

theorem IsCorrupted_eq_false (p : Pkt) :
    IsCorrupted p = false ↔ p.checksum = ComputeChecksum p := by
  simp [IsCorrupted]

theorem IsCorrupted_eq_true (p : Pkt) :
    IsCorrupted p = true ↔ p.checksum ≠ ComputeChecksum p := by
  simp [IsCorrupted]

theorem tmod_of_nonneg (x : Int) (n : Nat) (h : 0 ≤ x) : Int.tmod x n = x % n := by
  rw [Int.tmod_eq_emod h (Int.ofNat_nonneg n)]

/-! ## The checksum as an exclusive or of 32-bit patterns -/

theorem u32_lt (x : Int) : u32 x < 4294967296 := by
  unfold u32; omega

theorem u32_i32_mod (n : Nat) : u32 (i32 n) = n % 4294967296 := by
  unfold u32 i32
  split <;> omega

theorem u32_i32 (n : Nat) (h : n < 4294967296) : u32 (i32 n) = n := by
  rw [u32_i32_mod]; omega

theorem u32_charVal (x : Byte) :
    u32 (charVal x) = if x.val < 128 then x.val else x.val + 4294967040 := by
  have hx := x.isLt
  unfold u32 charVal
  split <;> omega

theorem u32_xor32 (a b : Int) : u32 (xor32 a b) = u32 a ^^^ u32 b := by
  unfold xor32
  apply u32_i32
  have ha := u32_lt a
  have hb := u32_lt b
  exact Nat.xor_lt_two_pow (n := 32) ha hb

theorem u32_checksum_fold (pl : List Byte) (l : List Nat) :
    ∀ c : Int, u32 (l.foldl (fun checksum i =>
        xor32 checksum (shl32 (charVal (pl.getD i 0)) ((i % 4) * 8))) c)
      = l.foldl (fun n i => n ^^^ byteTerm i (pl.getD i 0)) (u32 c) := by
  induction l with
  | nil => intro c; rfl
  | cons i l ih =>
    intro c
    simp only [List.foldl_cons]
    rw [ih, u32_xor32]
    rfl

theorem fold_xor_shift (f : Nat → Nat) (l : List Nat) :
    ∀ n m : Nat, l.foldl (fun n i => n ^^^ f i) (n ^^^ m)
      = l.foldl (fun n i => n ^^^ f i) n ^^^ m := by
  induction l with
  | nil => intro n m; rfl
  | cons i l ih =>
    intro n m
    simp only [List.foldl_cons]
    rw [Nat.xor_assoc, Nat.xor_comm m (f i), ← Nat.xor_assoc, ih]

/-- Replacing one payload byte changes the folded exclusive or by the old and
the new contribution of that byte. -/
theorem fold_put (pl : List Byte) (i : Nat) (hi : i < pl.length) (b : Byte) (l : List Nat)
    (hnd : l.Nodup) :
    ∀ n : Nat, l.foldl (fun n j => n ^^^ byteTerm j ((pl.set i b).getD j 0)) n
      = if i ∈ l then
          l.foldl (fun n j => n ^^^ byteTerm j (pl.getD j 0)) n
            ^^^ (byteTerm i (pl.getD i 0) ^^^ byteTerm i b)
        else l.foldl (fun n j => n ^^^ byteTerm j (pl.getD j 0)) n := by
  induction l with
  | nil => intro n; simp
  | cons j l ih =>
    intro n
    obtain ⟨hj, hnd1⟩ := List.nodup_cons.mp hnd
    simp only [List.foldl_cons]
    rw [ih hnd1]
    by_cases hji : j = i
    · subst hji
      have hget : (pl.set j b).getD j 0 = b := by
        simp [List.getD_eq_getElem?_getD, hi]
      simp only [hj, if_false, List.mem_cons, true_or, if_true, hget]
      rw [← fold_xor_shift (fun k => byteTerm k (pl.getD k 0)) l]
      congr 1
      rw [Nat.xor_assoc, Nat.xor_cancel_left]
    · have hget : (pl.set i b).getD j 0 = pl.getD j 0 := by
        simp [List.getD_eq_getElem?_getD, List.getElem?_set_ne (Ne.symm hji)]
      have hmem : i ∈ j :: l ↔ i ∈ l := by
        simp [List.mem_cons, Ne.symm hji]
      simp only [hget, hmem]

theorem byteTerm_injective (i : Nat) (b c : Byte) (h : byteTerm i b = byteTerm i c) :
    b = c := by
  have key : ∀ x : Byte, (byteTerm i x / 2 ^ ((i % 4) * 8)) % 256 = x.val := by
    intro x
    have hx := x.isLt
    unfold byteTerm shl32
    rw [u32_i32_mod, u32_charVal, Nat.shiftLeft_eq]
    have hs : i % 4 = 0 ∨ i % 4 = 1 ∨ i % 4 = 2 ∨ i % 4 = 3 := by omega
    rcases hs with hs | hs | hs | hs <;> rw [hs] <;> norm_num <;> split <;> omega
  apply Fin.ext
  rw [← key b, ← key c, h]

theorem u32_ComputeChecksum (p : Pkt) :
    u32 (ComputeChecksum p) = (List.range 20).foldl
      (fun n i => n ^^^ byteTerm i (p.payload.val.getD i 0))
      (u32 (xor32 (xor32 0 p.seqnum) p.acknum)) := by
  unfold ComputeChecksum
  exact u32_checksum_fold _ _ _

/-- Replacing one payload byte by a different value changes the checksum. -/
theorem ComputeChecksum_put_ne (p : Pkt) (i : Nat) (hi : i < 20) (b : Byte)
    (hb : b ≠ p.payload.val.getD i 0) :
    ComputeChecksum { p with payload := p.payload.put i b } ≠ ComputeChecksum p := by
  intro h
  have hu := congrArg u32 h
  rw [u32_ComputeChecksum, u32_ComputeChecksum] at hu
  have hlen : i < p.payload.val.length := by rw [p.payload.property]; exact hi
  have hput := fold_put p.payload.val i hlen b (List.range 20) (List.nodup_range 20)
    (u32 (xor32 (xor32 0 p.seqnum) p.acknum))
  rw [if_pos (List.mem_range.mpr hi)] at hput
  have hu2 : (List.range 20).foldl
      (fun n j => n ^^^ byteTerm j ((p.payload.val.set i b).getD j 0))
      (u32 (xor32 (xor32 0 p.seqnum) p.acknum))
      = (List.range 20).foldl (fun n j => n ^^^ byteTerm j (p.payload.val.getD j 0))
      (u32 (xor32 (xor32 0 p.seqnum) p.acknum)) := hu
  rw [hput] at hu2
  have hz : byteTerm i (p.payload.val.getD i 0) ^^^ byteTerm i b = 0 := by
    have := Nat.xor_right_injective (hu2.trans (Nat.xor_zero _).symm)
    exact this
  exact hb (byteTerm_injective i _ _ (Nat.xor_eq_zero.mp hz)).symm

/-! ## C4: detection of payload corruption -/

/-- C4, counterexample. Packet 0 of the letter stream (twenty `'a'`) is stamped
by `ComputeChecksum`; overwriting payload bytes 0 and 4 with `'z'` and keeping
the checksum gives a packet with a different payload that `IsCorrupted`
classifies as not corrupted: bytes four offsets apart are folded into the same
eight bits of the checksum. -/
theorem payload_corruption_undetected :
    (letterStream 0).checksum = ComputeChecksum (letterStream 0) ∧
    twoBytesOverwritten.payload ≠ (letterStream 0).payload ∧
    twoBytesOverwritten.checksum = (letterStream 0).checksum ∧
    twoBytesOverwritten.seqnum = (letterStream 0).seqnum ∧
    twoBytesOverwritten.acknum = (letterStream 0).acknum ∧
    IsCorrupted twoBytesOverwritten = false := by
  refine ⟨?_, ?_, rfl, rfl, rfl, ?_⟩ <;> decide

/-- C4, amended. For every packet `p` whose checksum field equals
`ComputeChecksum p` and every 20-byte payload `q` that differs from `p`'s payload
in exactly one byte, the packet obtained from `p` by replacing its payload with
`q` and keeping the original checksum is classified as corrupted. -/
theorem one_byte_corruption_detected (p : Pkt) (hp : p.checksum = ComputeChecksum p)
    (q : Arr Byte 20) (i : Nat) (hi : i < 20)
    (hdiff : q.val.getD i 0 ≠ p.payload.val.getD i 0)
    (hsame : ∀ j : Nat, j ≠ i → q.val.getD j 0 = p.payload.val.getD j 0) :
    IsCorrupted { p with payload := q } = true := by
  have hq : q = p.payload.put i (q.val.getD i 0) := by
    apply Subtype.ext
    apply List.ext_getElem?
    intro j
    show q.val[j]? = (p.payload.val.set i (q.val.getD i 0))[j]?
    have hql := q.property
    have hpl := p.payload.property
    by_cases hji : j = i
    · subst hji
      rw [List.getElem?_set_self (by omega)]
      simp [List.getD_eq_getElem?_getD,
        List.getElem?_eq_getElem (show j < q.val.length by omega)]
    · rw [List.getElem?_set_ne (Ne.symm hji)]
      by_cases hj : j < 20
      · have h := hsame j hji
        simp only [List.getD_eq_getElem?_getD,
          List.getElem?_eq_getElem (show j < q.val.length by omega),
          List.getElem?_eq_getElem (show j < p.payload.val.length by omega),
          Option.getD_some] at h
        rw [List.getElem?_eq_getElem (show j < q.val.length by omega),
          List.getElem?_eq_getElem (show j < p.payload.val.length by omega), h]
      · rw [List.getElem?_eq_none (by omega), List.getElem?_eq_none (by omega)]
  rw [IsCorrupted_eq_true, hq]
  show p.checksum ≠ ComputeChecksum { p with payload := p.payload.put i (q.val.getD i 0) }
  rw [hp]
  exact fun h => ComputeChecksum_put_ne p i hi _ hdiff h.symm

/-- Witness for C4 (amended): byte 0 of packet 0 of the letter stream
overwritten by `'z'`. -/
theorem one_byte_corruption_detected_witness :
    IsCorrupted { letterStream 0 with payload := (letterStream 0).payload.put 0 122 } = true :=
  one_byte_corruption_detected (letterStream 0) (by decide)
    ((letterStream 0).payload.put 0 122) 0 (by decide) (by decide)
    (by
      intro j hj
      cases j with
      | zero => exact absurd rfl hj
      | succ j => rfl)

/-! ## The sender's slide loop and acknowledgment handler -/

/-- What the slide loop returns: it advances over `n` packets that are all marked
acknowledged and, unless the window is exhausted, stops at one that is not. -/
theorem slideLoop_spec (buffer : Arr Pkt WINDOWSIZE) (acked : Arr Bool WINDOWSIZE) :
    ∀ (c : Nat) (wf wf1 wc1 : Int), 0 ≤ wf → wf < WINDOWSIZE →
      slideLoop buffer acked c wf = .ok (wf1, wc1) →
      ∃ n : Nat, n ≤ c ∧ wc1 = (c : Int) - n ∧ wf1 = (wf + n) % WINDOWSIZE ∧
        (∀ k : Nat, k < n → ∃ q, buffer.rd ((wf + k) % WINDOWSIZE) = .ok q ∧
            acked.rd q.seqnum = .ok true) ∧
        (n < c → ∃ q, buffer.rd ((wf + n) % WINDOWSIZE) = .ok q ∧
            acked.rd q.seqnum = .ok false) := by
  intro c
  induction c with
  | zero =>
    intro wf wf1 wc1 h0 h1 h
    simp only [slideLoop, Res.ok.injEq, Prod.mk.injEq] at h
    refine ⟨0, le_refl _, ?_, ?_, ?_, ?_⟩
    · simp [← h.2]
    · rw [← h.1]; simp only [WINDOWSIZE] at h1 ⊢; omega
    · intro k hk; omega
    · intro hk; omega
  | succ c ih =>
    intro wf wf1 wc1 h0 h1 h
    have hself : (wf + (0 : Nat)) % (WINDOWSIZE : Int) = wf := by
      simp only [WINDOWSIZE] at h1 ⊢; omega
    simp only [slideLoop] at h
    cases hq : buffer.rd wf with
    | outOfBounds => simp [hq] at h
    | outOfFuel => simp [hq] at h
    | ok q =>
      cases ha : acked.rd q.seqnum with
      | outOfBounds => simp [hq, ha] at h
      | outOfFuel => simp [hq, ha] at h
      | ok a =>
        cases a with
        | false =>
          simp only [hq, ha, Res.ok_bind, Bool.not_false, if_true, Res.pure_eq, Res.ok.injEq,
            Prod.mk.injEq] at h
          refine ⟨0, Nat.zero_le _, ?_, ?_, ?_, ?_⟩
          · rw [← h.2]; simp
          · rw [← h.1, hself]
          · intro k hk; omega
          · intro _; exact ⟨q, by rw [hself]; exact hq, ha⟩
        | true =>
          simp only [hq, ha, Res.ok_bind, Bool.not_true, Bool.false_eq_true, if_false] at h
          have hnext : Int.tmod (wf + 1) WINDOWSIZE = (wf + 1) % WINDOWSIZE :=
            tmod_of_nonneg _ _ (by omega)
          rw [hnext] at h
          have hn0 : 0 ≤ (wf + 1) % (WINDOWSIZE : Int) := Int.emod_nonneg _ (by decide)
          have hn1 : (wf + 1) % (WINDOWSIZE : Int) < (WINDOWSIZE : Nat) :=
            Int.emod_lt_of_pos _ (by decide)
          obtain ⟨n, hn, hwc, hwf, hall, hstop⟩ := ih _ wf1 wc1 hn0 hn1 h
          have hshift : ∀ k : Nat, ((wf + 1) % (WINDOWSIZE : Int) + k) % (WINDOWSIZE : Int)
              = (wf + ((k + 1 : Nat) : Int)) % (WINDOWSIZE : Int) := by
            intro k; simp only [WINDOWSIZE]; omega
          refine ⟨n + 1, Nat.succ_le_succ hn, ?_, ?_, ?_, ?_⟩
          · rw [hwc]; push_cast; ring
          · rw [hwf, hshift]
          · intro k hk
            cases k with
            | zero => exact ⟨q, by rw [hself]; exact hq, ha⟩
            | succ k =>
              obtain ⟨q1, hq1, ha1⟩ := hall k (by omega)
              exact ⟨q1, by rw [← hshift]; exact hq1, ha1⟩
          · intro hlt
            obtain ⟨q1, hq1, ha1⟩ := hstop (by omega)
            exact ⟨q1, by rw [← hshift]; exact hq1, ha1⟩

theorem slideLoop_ne_fuel (buffer : Arr Pkt WINDOWSIZE) (acked : Arr Bool WINDOWSIZE) :
    ∀ (c : Nat) (wf : Int), slideLoop buffer acked c wf ≠ .outOfFuel := by
  intro c
  induction c with
  | zero => intro wf; simp [slideLoop]
  | succ c ih =>
    intro wf
    simp only [slideLoop]
    cases hq : buffer.rd wf with
    | outOfBounds => simp
    | outOfFuel => exact absurd hq (Arr.rd_ne_fuel _ _)
    | ok q =>
      cases ha : acked.rd q.seqnum with
      | outOfBounds => simp [ha]
      | outOfFuel => exact absurd ha (Arr.rd_ne_fuel _ _)
      | ok a =>
        cases a with
        | false => simp [ha]
        | true => simpa [ha] using ih _

/-- The paths of `A_input` on a valid packet: an out-of-bounds access, a
duplicate, or a new acknowledgment, which is not for `buffer[windowfirst]`, or
is for it with an empty window, or is for it and runs the slide loop. -/
theorem A_input_valid (s : Sender) (p : Pkt) (hv : IsCorrupted p = false) :
    A_input s p = .outOfBounds ∨
    (s.acked.rd p.acknum = .ok true ∧ A_input s p = .ok (s, [])) ∨
    ∃ acked1 first, s.acked.rd p.acknum = .ok false ∧ s.acked.wr p.acknum true = .ok acked1 ∧
      s.buffer.rd s.windowfirst = .ok first ∧
      ((p.acknum ≠ first.seqnum ∧
          A_input s p = .ok ({ s with new_ACKs := s.new_ACKs + 1, acked := acked1 }, [])) ∨
        (p.acknum = first.seqnum ∧ s.windowcount ≤ 0 ∧
          A_input s p = .ok ({ s with new_ACKs := s.new_ACKs + 1, acked := acked1 },
            [Event.stoptimer .A])) ∨
        (p.acknum = first.seqnum ∧ 0 < s.windowcount ∧ ∃ wf1 wc1,
          slideLoop s.buffer acked1 s.windowcount.toNat s.windowfirst = .ok (wf1, wc1) ∧
          A_input s p = .ok ({ s with new_ACKs := s.new_ACKs + 1, acked := acked1,
                                      windowfirst := wf1, windowcount := wc1 },
            Event.stoptimer .A :: (if wc1 > 0 then [Event.starttimer .A RTT] else [])))) := by
  cases ha : s.acked.rd p.acknum with
  | outOfBounds => left; simp [A_input, hv, ha]
  | outOfFuel => exact absurd ha (Arr.rd_ne_fuel _ _)
  | ok a =>
    cases a with
    | true => right; left; simp [A_input, hv, ha]
    | false =>
      obtain ⟨hb0, hb1⟩ := Arr.rd_ok_bounds _ _ _ ha
      obtain ⟨acked1, hw⟩ := Arr.wr_in s.acked p.acknum true hb0 hb1
      cases hf : s.buffer.rd s.windowfirst with
      | outOfBounds => left; simp [A_input, hv, ha, hw, hf]
      | outOfFuel => exact absurd hf (Arr.rd_ne_fuel _ _)
      | ok first =>
        by_cases hfirst : p.acknum = first.seqnum
        · have ha2 := ha
          have hw2 := hw
          rw [hfirst] at ha2 hw2
          by_cases hc : 0 < s.windowcount
          · cases hs : slideLoop s.buffer acked1 s.windowcount.toNat s.windowfirst with
            | outOfBounds => left; simp [A_input, hv, ha2, hw2, hf, hfirst, hc, hs]
            | outOfFuel => exact absurd hs (slideLoop_ne_fuel _ _ _ _)
            | ok r =>
              right; right
              refine ⟨acked1, first, rfl, hw, rfl,
                Or.inr (Or.inr ⟨hfirst, hc, r.1, r.2, hs, ?_⟩)⟩
              simp [A_input, hv, ha2, hw2, hf, hfirst, hc, hs]
          · right; right
            refine ⟨acked1, first, rfl, hw, rfl, Or.inr (Or.inl ⟨hfirst, by omega, ?_⟩)⟩
            simp [A_input, hv, ha2, hw2, hf, hfirst, hc]
        · right; right
          exact ⟨acked1, first, rfl, hw, rfl,
            Or.inl ⟨hfirst, by simp [A_input, hv, ha, hw, hf, hfirst]⟩⟩


theorem A_input_ne_fuel (s : Sender) (p : Pkt) : A_input s p ≠ .outOfFuel := by
  cases hv : IsCorrupted p with
  | true => simp [A_input, hv]
  | false =>
    rcases A_input_valid s p hv with h | ⟨_, h⟩ |
      ⟨_, _, _, _, _, (⟨_, h⟩ | ⟨_, _, h⟩ | ⟨_, _, _, _, _, h⟩)⟩ <;> simp [h]

theorem senderStep_windowcount (s s1 : Sender) (c : SenderCall) (ev : List Event)
    (hinv : 0 ≤ s.windowcount ∧ s.windowcount ≤ WINDOWSIZE)
    (h : senderStep s c = .ok (s1, ev)) :
    0 ≤ s1.windowcount ∧ s1.windowcount ≤ WINDOWSIZE := by
  cases c with
  | output message =>
    simp only [senderStep, A_output] at h
    by_cases hroom : s.windowcount < WINDOWSIZE
    · simp only [hroom, if_true, Res.bind_eq_ok, Res.pure_eq, Res.ok.injEq,
        Prod.mk.injEq] at h
      obtain ⟨b, _, hs1, _⟩ := h
      rw [← hs1]
      simp only [WINDOWSIZE] at hroom ⊢
      constructor <;> omega
    · simp only [hroom, if_false, Res.pure_eq, Res.ok.injEq, Prod.mk.injEq] at h
      rw [← h.1]; exact hinv
  | input packet =>
    simp only [senderStep] at h
    cases hv : IsCorrupted packet with
    | true =>
      simp only [A_input, hv, Bool.not_true, Bool.false_eq_true, if_false, Res.pure_eq,
        Res.ok.injEq, Prod.mk.injEq] at h
      rw [← h.1]; exact hinv
    | false =>
      rcases A_input_valid s packet hv with h1 | ⟨_, h1⟩ |
        ⟨acked1, first, _, _, hf, (⟨_, h1⟩ | ⟨_, _, h1⟩ | ⟨_, hpos, wf1, wc1, hs, h1⟩)⟩
      · rw [h1] at h; cases h
      · rw [h1] at h; cases h; exact hinv
      · rw [h1] at h; cases h; exact hinv
      · rw [h1] at h; cases h; exact hinv
      · rw [h1] at h; cases h
        obtain ⟨hw0, hw1⟩ := Arr.rd_ok_bounds _ _ _ hf
        obtain ⟨n, hn, hwc, _⟩ := slideLoop_spec _ _ _ _ _ _ hw0 hw1 hs
        have ht : ((s.windowcount.toNat : Nat) : Int) = s.windowcount := Int.toNat_of_nonneg hinv.1
        simp only [WINDOWSIZE] at hinv ⊢
        constructor <;> omega
  | timerinterrupt =>
    simp only [senderStep, A_timerinterrupt] at h
    simp only [Res.bind_eq_ok, Res.pure_eq, Res.ok.injEq, Prod.mk.injEq] at h
    obtain ⟨first, _, hs1, _⟩ := h
    rw [← hs1]; exact hinv

theorem senderRun_cons_ok (s s2 : Sender) (c : SenderCall) (cs : List SenderCall)
    (ev : List Event) (h : senderRun s (c :: cs) = .ok (s2, ev)) :
    ∃ s1 e1 e2, senderStep s c = .ok (s1, e1) ∧ senderRun s1 cs = .ok (s2, e2) ∧
      ev = e1 ++ e2 := by
  simp only [senderRun, Res.bind_eq_ok, Res.pure_eq, Res.ok.injEq, Prod.mk.injEq] at h
  obtain ⟨⟨s1, e1⟩, h1, ⟨s2a, e2⟩, h2, hs, hev⟩ := h
  exact ⟨s1, e1, e2, h1, by rw [← hs]; exact h2, hev.symm⟩

theorem senderRun_windowcount (calls : List SenderCall) :
    ∀ (s s1 : Sender) (ev : List Event), 0 ≤ s.windowcount ∧ s.windowcount ≤ WINDOWSIZE →
      senderRun s calls = .ok (s1, ev) →
      0 ≤ s1.windowcount ∧ s1.windowcount ≤ WINDOWSIZE := by
  induction calls with
  | nil =>
    intro s s1 ev hinv h
    simp only [senderRun, Res.ok.injEq, Prod.mk.injEq] at h
    rw [← h.1]; exact hinv
  | cons c cs ih =>
    intro s s2 ev hinv h
    obtain ⟨s1, e1, e2, h1, h2, _⟩ := senderRun_cons_ok _ _ _ _ _ h
    exact ih s1 s2 e2 (senderStep_windowcount _ _ _ _ hinv h1) h2

/-- The cursors of the sender stay indices of the window buffer: after `A_init`
and any sequence of handler calls, `-1 ≤ windowlast < WINDOWSIZE` and
`0 ≤ windowfirst < WINDOWSIZE`. -/
theorem senderRun_cursors (calls : List SenderCall) :
    ∀ (s s1 : Sender) (ev : List Event),
      (-1 ≤ s.windowlast ∧ s.windowlast < WINDOWSIZE ∧
        0 ≤ s.windowfirst ∧ s.windowfirst < WINDOWSIZE) →
      senderRun s calls = .ok (s1, ev) →
      -1 ≤ s1.windowlast ∧ s1.windowlast < WINDOWSIZE ∧
        0 ≤ s1.windowfirst ∧ s1.windowfirst < WINDOWSIZE := by
  induction calls with
  | nil =>
    intro s s1 ev hinv h
    simp only [senderRun, Res.ok.injEq, Prod.mk.injEq] at h
    rw [← h.1]; exact hinv
  | cons c cs ih =>
    intro s s2 ev hinv h
    obtain ⟨s1, e1, e2, h1, h2, _⟩ := senderRun_cons_ok _ _ _ _ _ h
    refine ih s1 s2 e2 ?_ h2
    obtain ⟨hl0, hl1, hf0, hf1⟩ := hinv
    cases c with
    | output message =>
      simp only [senderStep, A_output] at h1
      by_cases hroom : s.windowcount < WINDOWSIZE
      · simp only [hroom, if_true, Res.bind_eq_ok, Res.pure_eq, Res.ok.injEq,
          Prod.mk.injEq] at h1
        obtain ⟨b, hb, hs1, _⟩ := h1
        obtain ⟨⟨hw0, hw1⟩, _⟩ := (Arr.wr_eq_ok _ _ _ _).mp hb
        rw [← hs1]
        exact ⟨le_trans (by decide) hw0, hw1, hf0, hf1⟩
      · simp only [hroom, if_false, Res.pure_eq, Res.ok.injEq, Prod.mk.injEq] at h1
        rw [← h1.1]; exact ⟨hl0, hl1, hf0, hf1⟩
    | input packet =>
      simp only [senderStep] at h1
      cases hv : IsCorrupted packet with
      | true =>
        simp only [A_input, hv, Bool.not_true, Bool.false_eq_true, if_false, Res.pure_eq,
          Res.ok.injEq, Prod.mk.injEq] at h1
        rw [← h1.1]; exact ⟨hl0, hl1, hf0, hf1⟩
      | false =>
        rcases A_input_valid s packet hv with h3 | ⟨_, h3⟩ |
          ⟨acked1, first, _, _, hf, (⟨_, h3⟩ | ⟨_, _, h3⟩ | ⟨_, hpos, wf1, wc1, hs, h3⟩)⟩
        · rw [h3] at h1; cases h1
        · rw [h3] at h1; cases h1; exact ⟨hl0, hl1, hf0, hf1⟩
        · rw [h3] at h1; cases h1; exact ⟨hl0, hl1, hf0, hf1⟩
        · rw [h3] at h1; cases h1; exact ⟨hl0, hl1, hf0, hf1⟩
        · rw [h3] at h1; cases h1
          obtain ⟨n, _, _, hwf, _⟩ := slideLoop_spec _ _ _ _ _ _ hf0 hf1 hs
          refine ⟨hl0, hl1, ?_, ?_⟩
          · show 0 ≤ wf1
            rw [hwf]; exact Int.emod_nonneg _ (by decide)
          · show wf1 < (WINDOWSIZE : Nat)
            rw [hwf]; exact Int.emod_lt_of_pos _ (by decide)
    | timerinterrupt =>
      simp only [senderStep, A_timerinterrupt, Res.bind_eq_ok, Res.pure_eq, Res.ok.injEq,
        Prod.mk.injEq] at h1
      obtain ⟨first, _, hs1, _⟩ := h1
      rw [← hs1]; exact ⟨hl0, hl1, hf0, hf1⟩

/-- In every sender state reached from `A_init`, `windowlast` is at least -1 and
both cursors are below `WINDOWSIZE`. -/
theorem A_init_run_cursors (s0 s1 : Sender) (calls : List SenderCall) (ev : List Event)
    (h : senderRun (A_init s0) calls = .ok (s1, ev)) :
    -1 ≤ s1.windowlast ∧ s1.windowlast < WINDOWSIZE ∧
      0 ≤ s1.windowfirst ∧ s1.windowfirst < WINDOWSIZE :=
  senderRun_cursors calls (A_init s0) s1 ev (by simp [A_init]) h

/-! ## C2: the window never holds more than `WINDOWSIZE` packets -/

/-- C2. In every sender state reached from `A_init` (on any prior storage) by a
sequence of `A_output`, `A_input` and `A_timerinterrupt` calls with arbitrary
messages and packets, `0 ≤ windowcount ≤ WINDOWSIZE`. -/
theorem window_count_bounded (s0 s : Sender) (calls : List SenderCall) (ev : List Event)
    (h : senderRun (A_init s0) calls = .ok (s, ev)) :
    0 ≤ s.windowcount ∧ s.windowcount ≤ WINDOWSIZE :=
  senderRun_windowcount calls (A_init s0) s ev (by simp [A_init]) h

/-- Witness for C2: the state after `A_init` and one `A_output`. -/
theorem window_count_bounded_witness :
    senderRun (A_init senderZero) [.output (fillMsg 97)] =
        .ok (senderOneInFlight,
          [Event.tolayer3 .A (mkDataPkt 0 (fillMsg 97)), Event.starttimer .A RTT]) ∧
      0 ≤ senderOneInFlight.windowcount ∧ senderOneInFlight.windowcount ≤ WINDOWSIZE :=
  ⟨by decide, window_count_bounded senderZero senderOneInFlight [.output (fillMsg 97)]
    [Event.tolayer3 .A (mkDataPkt 0 (fillMsg 97)), Event.starttimer .A RTT] (by decide)⟩

/-! ## C5: an accepted submission -/

/-- C5. With `windowcount < WINDOWSIZE` (and `windowlast` a cursor of the
buffer, that is at least -1, as it is in every state reached from `A_init`,
`A_init_run_cursors`), `A_output` hands exactly one packet to layer 3:
its `seqnum` is the old `A_nextseqnum`, its `acknum` is `NOTINUSE`, its payload
is the message and its checksum is `ComputeChecksum` of it, so it is not
corrupted.  The packet is stored at `buffer[(windowlast + 1) mod WINDOWSIZE]`,
the other slots keep their content, `windowcount` grows by one,
`A_nextseqnum` becomes `(A_nextseqnum + 1) % SEQSPACE` (the C remainder, equal
to the mathematical one for a non-negative `A_nextseqnum`), and `starttimer` is
called if and only if `windowcount` was 0. -/
theorem A_output_accepts (s : Sender) (message : Msg)
    (hroom : s.windowcount < WINDOWSIZE) (hlast : -1 ≤ s.windowlast) :
    ∃ s1 timer,
      A_output s message
        = .ok (s1, Event.tolayer3 .A (mkDataPkt s.A_nextseqnum message) :: timer) ∧
      (mkDataPkt s.A_nextseqnum message).seqnum = s.A_nextseqnum ∧
      (mkDataPkt s.A_nextseqnum message).acknum = NOTINUSE ∧
      (mkDataPkt s.A_nextseqnum message).payload = message.data ∧
      (mkDataPkt s.A_nextseqnum message).checksum
        = ComputeChecksum (mkDataPkt s.A_nextseqnum message) ∧
      IsCorrupted (mkDataPkt s.A_nextseqnum message) = false ∧
      s1.windowlast = (s.windowlast + 1) % WINDOWSIZE ∧
      s1.buffer.rd ((s.windowlast + 1) % WINDOWSIZE) = .ok (mkDataPkt s.A_nextseqnum message) ∧
      (∀ j : Int, j ≠ (s.windowlast + 1) % WINDOWSIZE → s1.buffer.rd j = s.buffer.rd j) ∧
      s1.windowcount = s.windowcount + 1 ∧
      s1.A_nextseqnum = Int.tmod (s.A_nextseqnum + 1) SEQSPACE ∧
      (0 ≤ s.A_nextseqnum → s1.A_nextseqnum = (s.A_nextseqnum + 1) % SEQSPACE) ∧
      timer = (if s.windowcount = 0 then [Event.starttimer .A RTT] else []) ∧
      s1.windowfirst = s.windowfirst ∧ s1.acked = s.acked ∧
      s1.window_full = s.window_full ∧ s1.new_ACKs = s.new_ACKs ∧
      s1.packets_resent = s.packets_resent := by
  have hmod : Int.tmod (s.windowlast + 1) WINDOWSIZE = (s.windowlast + 1) % WINDOWSIZE :=
    tmod_of_nonneg _ _ (by omega)
  have h0 : 0 ≤ (s.windowlast + 1) % (WINDOWSIZE : Int) := Int.emod_nonneg _ (by decide)
  have h1 : (s.windowlast + 1) % (WINDOWSIZE : Int) < (WINDOWSIZE : Nat) :=
    Int.emod_lt_of_pos _ (by decide)
  obtain ⟨b, hb⟩ := Arr.wr_in s.buffer _ (mkDataPkt s.A_nextseqnum message) h0 h1
  refine ⟨{ s with buffer := b, windowlast := (s.windowlast + 1) % WINDOWSIZE,
                   windowcount := s.windowcount + 1,
                   A_nextseqnum := Int.tmod (s.A_nextseqnum + 1) SEQSPACE },
    if s.windowcount = 0 then [Event.starttimer .A RTT] else [],
    ?_, rfl, rfl, rfl, rfl, IsCorrupted_mkDataPkt _ _, rfl, Arr.rd_wr_same _ _ _ _ hb,
    fun j hj => Arr.rd_wr_other _ _ _ _ _ hb hj, rfl, rfl,
    fun h => tmod_of_nonneg _ _ (by omega), rfl, rfl, rfl, rfl, rfl, rfl⟩
  have hone : (s.windowcount + 1 = 1) = (s.windowcount = 0) := by
    apply propext; constructor <;> intro h <;> omega
  simp only [A_output, hroom, if_true, hmod, hb, Res.ok_bind, Res.pure_eq, hone]

/-- Witness for C5: the first message after `A_init`. -/
theorem A_output_accepts_witness :
    ∃ s1 timer,
      A_output (A_init senderZero) (fillMsg 97) =
        .ok (s1, Event.tolayer3 .A (mkDataPkt (A_init senderZero).A_nextseqnum (fillMsg 97))
          :: timer) ∧
      s1.windowcount = 1 ∧ timer = [Event.starttimer .A RTT] := by
  obtain ⟨s1, timer, h, _, _, _, _, _, _, _, _, hc, _, _, ht, _⟩ :=
    A_output_accepts (A_init senderZero) (fillMsg 97) (by decide) (by decide)
  exact ⟨s1, timer, h, hc, ht⟩

/-! ## C6: a full window rejects the message -/

/-- C6. With `windowcount = WINDOWSIZE`, `A_output` sends nothing, calls neither
`starttimer` nor `stoptimer`, and changes nothing in the sender state except
`window_full`, which grows by exactly one. -/
theorem A_output_window_full (s : Sender) (message : Msg)
    (hfull : s.windowcount = WINDOWSIZE) :
    A_output s message = .ok ({ s with window_full := s.window_full + 1 }, []) := by
  simp [A_output, hfull]

/-- Witness for C6: a sender with six packets in flight. -/
theorem A_output_window_full_witness :
    A_output { senderOneInFlight with windowcount := 6 } (fillMsg 98) =
      .ok ({ senderOneInFlight with windowcount := 6, window_full := 1 }, []) :=
  A_output_window_full { senderOneInFlight with windowcount := 6 } (fillMsg 98) rfl

/-! ## C7: a repeated acknowledgment changes nothing -/

/-- C7. For a valid acknowledgment and a sender state on which `A_input` stays
within the bounds of its arrays (so `acknum` is an index of the acknowledgment
map), the first `A_input` returns a state on which a second `A_input` of the
same packet returns that very state, every field equal, and makes no emulator
call, so no timer start or stop. -/
theorem A_input_idempotent (s : Sender) (p : Pkt) (hv : IsCorrupted p = false)
    (hdef : A_input s p ≠ .outOfBounds) :
    ∃ s1 ev1, A_input s p = .ok (s1, ev1) ∧ A_input s1 p = .ok (s1, []) := by
  have hdup : ∀ t : Sender, t.acked.rd p.acknum = .ok true → A_input t p = .ok (t, []) := by
    intro t ht
    simp [A_input, hv, ht]
  rcases A_input_valid s p hv with h | ⟨ha, h⟩ |
    ⟨acked1, first, _, hw, _, (⟨_, h⟩ | ⟨_, _, h⟩ | ⟨_, _, wf1, wc1, _, h⟩)⟩
  · exact absurd h hdef
  · exact ⟨s, [], h, hdup s ha⟩
  · exact ⟨_, _, h, hdup _ (Arr.rd_wr_same _ _ _ _ hw)⟩
  · exact ⟨_, _, h, hdup _ (Arr.rd_wr_same _ _ _ _ hw)⟩
  · exact ⟨_, _, h, hdup _ (Arr.rd_wr_same _ _ _ _ hw)⟩

/-- Witness for C7: the acknowledgment of the one packet in flight. -/
theorem A_input_idempotent_witness :
    ∃ s1 ev1, A_input senderOneInFlight (ackFor 0) = .ok (s1, ev1) ∧
      A_input s1 (ackFor 0) = .ok (s1, []) :=
  A_input_idempotent senderOneInFlight (ackFor 0) (by decide) (by decide)

/-! ## C8: a corrupted acknowledgment is ignored -/

/-- C8. For every sender state and every packet whose checksum field differs from
`ComputeChecksum`, whatever its `acknum`, `A_input` returns the state unchanged
and makes no emulator call (nothing sent, no timer start or stop). -/
theorem A_input_corrupted_ignored (s : Sender) (p : Pkt)
    (hbad : p.checksum ≠ ComputeChecksum p) :
    A_input s p = .ok (s, []) := by
  simp [A_input, IsCorrupted, hbad]

/-- Witness for C8: an acknowledgment for 0 whose checksum was overwritten, with
an `acknum` far outside the acknowledgment map. -/
theorem A_input_corrupted_ignored_witness :
    A_input senderOneInFlight { ackFor 0 with acknum := 999999 } =
      .ok (senderOneInFlight, []) :=
  A_input_corrupted_ignored senderOneInFlight { ackFor 0 with acknum := 999999 }
    (by decide)

/-! ## C9: acknowledgment of a packet that is not in flight -/

theorem three_not_in_flight : ¬ inFlight senderOneInFlight (ackFor 3).acknum := by
  rintro ⟨k, hk, q, hq, hqa⟩
  have hk0 : k = 0 := by
    have : (k : Int) < 1 := hk
    omega
  subst hk0
  have hq0 : senderOneInFlight.buffer.rd
      ((senderOneInFlight.windowfirst + (0 : Nat)) % WINDOWSIZE)
      = .ok (mkDataPkt 0 (fillMsg 97)) := by decide
  rw [hq0] at hq
  cases hq
  revert hqa
  decide

/-- C9, counterexample. After `A_init` and one `A_output` only packet 0 is in
flight; the valid acknowledgment for sequence number 3, which belongs to no
packet in the window, still marks slot 3 of the acknowledgment map and
increments `new_ACKs`. -/
theorem A_input_not_in_flight_changes_map :
    A_output (A_init senderZero) (fillMsg 97) =
        .ok (senderOneInFlight,
          [Event.tolayer3 .A (mkDataPkt 0 (fillMsg 97)), Event.starttimer .A RTT]) ∧
      IsCorrupted (ackFor 3) = false ∧
      ¬ inFlight senderOneInFlight (ackFor 3).acknum ∧
      ∃ s1, A_input senderOneInFlight (ackFor 3) = .ok (s1, []) ∧
        s1.acked ≠ senderOneInFlight.acked ∧
        s1.new_ACKs ≠ senderOneInFlight.new_ACKs := by
  refine ⟨by decide, by decide, three_not_in_flight, ?_⟩
  · refine ⟨{ senderOneInFlight with
        new_ACKs := 1
        acked := ⟨[false, false, false, true, false, false], rfl⟩ }, ?_, ?_, ?_⟩
      <;> decide

/-- C9, amended. For a valid acknowledgment whose `acknum` is the `seqnum` of no
packet in the window, on a state where `A_input` stays within the bounds of its
arrays, `A_input` leaves `windowfirst`, `windowcount`, `buffer`, `windowlast`
and `A_nextseqnum` unchanged and starts no timer; if the slot `acknum` is
already marked the whole state is unchanged and no emulator call is made;
otherwise the slot is marked and `new_ACKs` grows by one. -/
theorem A_input_not_in_flight (s : Sender) (p : Pkt) (hv : IsCorrupted p = false)
    (hout : ¬ inFlight s p.acknum) (hdef : A_input s p ≠ .outOfBounds) :
    ∃ s1 ev, A_input s p = .ok (s1, ev) ∧
      s1.windowfirst = s.windowfirst ∧ s1.windowcount = s.windowcount ∧
      s1.buffer = s.buffer ∧ s1.windowlast = s.windowlast ∧
      s1.A_nextseqnum = s.A_nextseqnum ∧
      (∀ e ∈ ev, e = Event.stoptimer .A) ∧
      ((s.acked.rd p.acknum = .ok true ∧ s1 = s ∧ ev = []) ∨
        (s.acked.rd p.acknum = .ok false ∧ s.acked.wr p.acknum true = .ok s1.acked ∧
          s1.new_ACKs = s.new_ACKs + 1)) := by
  rcases A_input_valid s p hv with h | ⟨ha, h⟩ |
    ⟨acked1, first, ha, hw, hf, (⟨_, h⟩ | ⟨_, _, h⟩ | ⟨hfirst, hc, _, _, _, _⟩)⟩
  · exact absurd h hdef
  · exact ⟨s, [], h, rfl, rfl, rfl, rfl, rfl, by simp, Or.inl ⟨ha, rfl, rfl⟩⟩
  · exact ⟨_, _, h, rfl, rfl, rfl, rfl, rfl, by simp, Or.inr ⟨ha, hw, rfl⟩⟩
  · exact ⟨_, _, h, rfl, rfl, rfl, rfl, rfl, by simp, Or.inr ⟨ha, hw, rfl⟩⟩
  · exfalso
    apply hout
    obtain ⟨hw0, hw1⟩ := Arr.rd_ok_bounds _ _ _ hf
    have hself : (s.windowfirst + (0 : Nat)) % (WINDOWSIZE : Int) = s.windowfirst := by
      simp only [WINDOWSIZE] at hw1 ⊢; omega
    exact ⟨0, by simpa using hc, first, by rw [hself]; exact hf, hfirst.symm⟩

/-- Witness for C9 (amended): the acknowledgment for 3 while only packet 0 is in
flight. -/
theorem A_input_not_in_flight_witness :
    ∃ s1 ev, A_input senderOneInFlight (ackFor 3) = .ok (s1, ev) ∧
      s1.windowfirst = senderOneInFlight.windowfirst ∧
      s1.windowcount = senderOneInFlight.windowcount := by
  obtain ⟨s1, ev, h, h1, h2, _⟩ :=
    A_input_not_in_flight senderOneInFlight (ackFor 3) (by decide) three_not_in_flight (by decide)
  exact ⟨s1, ev, h, h1, h2⟩

/-! ## C10: the window slide -/

/-- C10. Let a valid acknowledgment arrive whose slot is not yet marked and whose
`acknum` is the `seqnum` of `buffer[windowfirst]`, with `windowcount = c > 0`,
on a state where `A_input` stays within the bounds of its arrays.  Then, with
`acked1` the map after marking the slot, the window advances by `n` positions
where `1 ≤ n ≤ c`, the packets at `(windowfirst + k) mod WINDOWSIZE` for
`k < n` are all marked in `acked1`, and if `n < c` the packet at
`(windowfirst + n) mod WINDOWSIZE` is not marked (so `n` is the largest such
number); the new `windowcount` is `c - n`, the new `windowfirst` is
`(windowfirst + n) mod WINDOWSIZE`; the emulator calls are `stoptimer` followed
by `starttimer` exactly when the new `windowcount` is positive. -/
theorem A_input_slides (s : Sender) (p : Pkt) (first : Pkt)
    (hv : IsCorrupted p = false)
    (hnew : s.acked.rd p.acknum = .ok false)
    (hfirst : s.buffer.rd s.windowfirst = .ok first)
    (hleft : p.acknum = first.seqnum)
    (hc : 0 < s.windowcount)
    (hdef : A_input s p ≠ .outOfBounds) :
    ∃ (n : Nat) (acked1 : Arr Bool WINDOWSIZE) (s1 : Sender),
      s.acked.wr p.acknum true = .ok acked1 ∧
      A_input s p = .ok (s1, Event.stoptimer .A ::
        (if s.windowcount - n > 0 then [Event.starttimer .A RTT] else [])) ∧
      1 ≤ n ∧ (n : Int) ≤ s.windowcount ∧
      (∀ k : Nat, k < n → ∃ q, s.buffer.rd ((s.windowfirst + k) % WINDOWSIZE) = .ok q ∧
        acked1.rd q.seqnum = .ok true) ∧
      ((n : Int) < s.windowcount →
        ∃ q, s.buffer.rd ((s.windowfirst + n) % WINDOWSIZE) = .ok q ∧
          acked1.rd q.seqnum = .ok false) ∧
      s1.windowcount = s.windowcount - n ∧
      s1.windowfirst = (s.windowfirst + n) % WINDOWSIZE ∧
      s1.acked = acked1 ∧ s1.new_ACKs = s.new_ACKs + 1 ∧
      s1.buffer = s.buffer ∧ s1.windowlast = s.windowlast ∧
      s1.A_nextseqnum = s.A_nextseqnum := by
  have ht : ((s.windowcount.toNat : Nat) : Int) = s.windowcount :=
    Int.toNat_of_nonneg (le_of_lt hc)
  obtain ⟨hw0, hw1⟩ := Arr.rd_ok_bounds _ _ _ hfirst
  have hself : (s.windowfirst + (0 : Nat)) % (WINDOWSIZE : Int) = s.windowfirst := by
    simp only [WINDOWSIZE] at hw1 ⊢; omega
  rcases A_input_valid s p hv with h | ⟨ha, _⟩ |
    ⟨acked1, first1, _, hw, hf1, (⟨hne, _⟩ | ⟨_, hle, _⟩ | ⟨_, _, wf1, wc1, hs, h⟩)⟩
  · exact absurd h hdef
  · rw [hnew] at ha; cases ha
  · rw [hfirst] at hf1; cases hf1; exact absurd hleft hne
  · omega
  · obtain ⟨n, hn, hwc, hwf, hall, hstop⟩ := slideLoop_spec _ _ _ _ _ _ hw0 hw1 hs
    rw [ht] at hwc
    have hn1 : 1 ≤ n := by
      rcases Nat.eq_zero_or_pos n with h0 | h0
      · exfalso
        subst h0
        obtain ⟨q, hq, hqa⟩ := hstop (by omega)
        rw [hself, hfirst] at hq
        cases hq
        rw [← hleft, Arr.rd_wr_same _ _ _ _ hw] at hqa
        cases hqa
      · exact h0
    refine ⟨n, acked1, { s with new_ACKs := s.new_ACKs + 1, acked := acked1,
                                windowfirst := wf1, windowcount := wc1 },
      hw, ?_, hn1, by omega, hall, ?_, hwc, hwf, rfl, rfl, rfl, rfl, rfl⟩
    · rw [h, hwc]
    · intro hlt
      exact hstop (by omega)

/-- Witness for C10: the acknowledgment of the only packet in flight empties the
window. -/
theorem A_input_slides_witness :
    ∃ (n : Nat) (acked1 : Arr Bool WINDOWSIZE) (s1 : Sender),
      senderOneInFlight.acked.wr (ackFor 0).acknum true = .ok acked1 ∧
      A_input senderOneInFlight (ackFor 0) = .ok (s1, Event.stoptimer .A ::
        (if senderOneInFlight.windowcount - n > 0 then [Event.starttimer .A RTT] else [])) ∧
      1 ≤ n ∧ s1.windowcount = senderOneInFlight.windowcount - n := by
  obtain ⟨n, acked1, s1, h1, h2, h3, _, _, _, h4, _⟩ :=
    A_input_slides senderOneInFlight (ackFor 0) (mkDataPkt 0 (fillMsg 97))
      (by decide) (by decide) (by decide) (by decide) (by decide) (by decide)
  exact ⟨n, acked1, s1, h1, h2, h3, h4⟩

/-! ## The receiver's drain loop -/

theorem sent_tolayer5 (evs : List Event) (h : ∀ e ∈ evs, ∃ d, e = Event.tolayer5 .B d) :
    sent evs = [] := by
  induction evs with
  | nil => rfl
  | cons e es ih =>
    obtain ⟨d, hd⟩ := h e (List.mem_cons_self _ _)
    subst hd
    simp only [sent]
    exact ih (fun e he => h e (List.mem_cons_of_mem _ he))

/-- The drain loop ends within its budget: started with `fuel` iterations left
on a state whose slots `expectedseqnum + i`, `fuel ≤ i < SEQSPACE`, are already
clear, it returns, and it only calls `tolayer5`. -/
theorem drainLoop_returns :
    ∀ (fuel : Nat) (r : Receiver), fuel ≤ SEQSPACE →
      0 ≤ r.expectedseqnum → r.expectedseqnum < SEQSPACE →
      (∀ i : Nat, fuel ≤ i → i < SEQSPACE →
        r.pkt_r_acked.rd ((r.expectedseqnum + i) % SEQSPACE) = .ok false) →
      ∃ r1 evs, drainLoop fuel r = .ok (r1, evs) ∧
        (∀ e ∈ evs, ∃ d, e = Event.tolayer5 .B d) ∧
        0 ≤ r1.expectedseqnum ∧ r1.expectedseqnum < SEQSPACE := by
  intro fuel
  induction fuel with
  | zero =>
    intro r _ h0 h1 hclear
    have hf := hclear 0 (le_refl _) (by decide)
    have hself : (r.expectedseqnum + (0 : Nat)) % (SEQSPACE : Int) = r.expectedseqnum := by
      simp only [SEQSPACE] at h1 ⊢; omega
    rw [hself] at hf
    refine ⟨r, [], ?_, by simp, h0, h1⟩
    unfold drainLoop
    simp [hf]
  | succ fuel ih =>
    intro r hfuel h0 h1 hclear
    obtain ⟨flag, hflag⟩ := Arr.rd_in r.pkt_r_acked r.expectedseqnum h0 h1
    cases flag with
    | false =>
      refine ⟨r, [], ?_, by simp, h0, h1⟩
      unfold drainLoop
      simp [hflag]
    | true =>
      obtain ⟨stored, hstored⟩ := Arr.rd_in r.pkt_r r.expectedseqnum h0 h1
      obtain ⟨flags, hflags⟩ := Arr.wr_in r.pkt_r_acked r.expectedseqnum false h0 h1
      have hnext : Int.tmod (r.expectedseqnum + 1) SEQSPACE = (r.expectedseqnum + 1) % SEQSPACE :=
        tmod_of_nonneg _ _ (by omega)
      have hn0 : 0 ≤ (r.expectedseqnum + 1) % (SEQSPACE : Int) := Int.emod_nonneg _ (by decide)
      have hn1 : (r.expectedseqnum + 1) % (SEQSPACE : Int) < (SEQSPACE : Nat) :=
        Int.emod_lt_of_pos _ (by decide)
      obtain ⟨r1, evs, hrun, hevs, hr0, hr1⟩ := ih
        { r with pkt_r_acked := flags,
                 expectedseqnum := (r.expectedseqnum + 1) % SEQSPACE }
        (by omega) hn0 hn1
        (by
          intro i hi hi12
          show flags.rd (((r.expectedseqnum + 1) % (SEQSPACE : Int) + i) % (SEQSPACE : Int))
            = .ok false
          by_cases hlast : i = 11
          · have hidx : ((r.expectedseqnum + 1) % (SEQSPACE : Int) + i) % (SEQSPACE : Int)
                = r.expectedseqnum := by
              simp only [SEQSPACE] at h1 ⊢; omega
            rw [hidx]
            exact Arr.rd_wr_same _ _ _ _ hflags
          · have hidx : ((r.expectedseqnum + 1) % (SEQSPACE : Int) + i) % (SEQSPACE : Int)
                = (r.expectedseqnum + ((i + 1 : Nat) : Int)) % (SEQSPACE : Int) := by
              simp only [SEQSPACE]; omega
            have hne : (r.expectedseqnum + ((i + 1 : Nat) : Int)) % (SEQSPACE : Int)
                ≠ r.expectedseqnum := by
              simp only [SEQSPACE] at h1 hi12 ⊢; omega
            rw [hidx, Arr.rd_wr_other _ _ _ _ _ hflags hne]
            exact hclear (i + 1) (by omega) (by simp only [SEQSPACE] at hi12 ⊢; omega))
      refine ⟨r1, Event.tolayer5 .B stored.payload :: evs, ?_, ?_, hr0, hr1⟩
      · unfold drainLoop
        simp only [hflag, Res.ok_bind, if_true, hstored, hflags, hnext, hrun, Res.pure_eq]
      · intro e he
        rcases List.mem_cons.mp he with h | h
        · exact ⟨_, h⟩
        · exact hevs e h

/-- The caching step of `B_input` on a valid packet with an in-range sequence
number: the state `r2` the drain loop starts from. -/
theorem B_input_valid (r : Receiver) (p : Pkt) (hv : IsCorrupted p = false)
    (hs0 : 0 ≤ p.seqnum) (hs1 : p.seqnum < SEQSPACE) :
    ∃ r2 : Receiver,
      B_input r p = (drainLoop SEQSPACE r2 >>= fun y =>
          (pure (y.1, Event.tolayer3 .B (mkAckPkt p) :: y.2) : Res (Receiver × List Event))) ∧
      r2.expectedseqnum = r.expectedseqnum ∧
      r2.packets_received = r.packets_received + 1 ∧
      r2.pkt_r_acked.rd p.seqnum = .ok true ∧
      (∀ j : Int, j ≠ p.seqnum → r2.pkt_r_acked.rd j = r.pkt_r_acked.rd j) ∧
      (∀ j : Int, j ≠ p.seqnum → r2.pkt_r.rd j = r.pkt_r.rd j) ∧
      ((r.pkt_r_acked.rd p.seqnum = .ok true ∧ r2.pkt_r = r.pkt_r ∧
          r2.pkt_r_acked = r.pkt_r_acked) ∨
        (r.pkt_r_acked.rd p.seqnum = .ok false ∧ r2.pkt_r.rd p.seqnum = .ok p)) := by
  obtain ⟨flag, hflag⟩ := Arr.rd_in r.pkt_r_acked p.seqnum hs0 hs1
  cases flag with
  | true =>
    refine ⟨{ r with packets_received := r.packets_received + 1 }, ?_, rfl, rfl, hflag,
      fun _ _ => rfl, fun _ _ => rfl, Or.inl ⟨hflag, rfl, rfl⟩⟩
    simp only [B_input, hv, Bool.not_false, if_true, hflag, Res.ok_bind, Bool.not_true,
      Bool.false_eq_true, if_false, Res.pure_eq]
  | false =>
    obtain ⟨cache, hcache⟩ := Arr.wr_in r.pkt_r p.seqnum p hs0 hs1
    obtain ⟨flags, hflags⟩ := Arr.wr_in r.pkt_r_acked p.seqnum true hs0 hs1
    refine ⟨{ r with packets_received := r.packets_received + 1, pkt_r := cache,
                     pkt_r_acked := flags }, ?_, rfl, rfl,
      Arr.rd_wr_same _ _ _ _ hflags,
      fun j hj => Arr.rd_wr_other _ _ _ _ _ hflags hj,
      fun j hj => Arr.rd_wr_other _ _ _ _ _ hcache hj,
      Or.inr ⟨hflag, Arr.rd_wr_same _ _ _ _ hcache⟩⟩
    simp only [B_input, hv, Bool.not_false, if_true, hflag, Res.ok_bind, hcache, hflags,
      Res.pure_eq]

theorem B_input_corrupted (r : Receiver) (p : Pkt) (hbad : IsCorrupted p = true) :
    B_input r p = .ok (r, [Event.tolayer3 .B (mkAckPkt p)]) := by
  simp [B_input, hbad]

/-- `B_input` keeps `expectedseqnum` an index of the receive arrays. -/
theorem B_input_expectedseqnum (r r1 : Receiver) (p : Pkt) (evs : List Event)
    (h0 : 0 ≤ r.expectedseqnum) (h1 : r.expectedseqnum < SEQSPACE)
    (h : B_input r p = .ok (r1, evs)) :
    0 ≤ r1.expectedseqnum ∧ r1.expectedseqnum < SEQSPACE := by
  cases hv : IsCorrupted p with
  | true =>
    rw [B_input_corrupted r p hv] at h
    cases h
    exact ⟨h0, h1⟩
  | false =>
    have hrange : 0 ≤ p.seqnum ∧ p.seqnum < SEQSPACE := by
      cases hf : r.pkt_r_acked.rd p.seqnum with
      | ok flag => exact Arr.rd_ok_bounds _ _ _ hf
      | outOfBounds => simp [B_input, hv, hf] at h
      | outOfFuel => exact absurd hf (Arr.rd_ne_fuel _ _)
    obtain ⟨r2, hrun, he, _⟩ := B_input_valid r p hv hrange.1 hrange.2
    obtain ⟨r3, evs3, hdrain, _, hr0, hr1⟩ := drainLoop_returns SEQSPACE r2 (le_refl _)
      (by rw [he]; exact h0) (by rw [he]; exact h1) (by intro i hi hi2; omega)
    rw [hrun, hdrain] at h
    cases h
    exact ⟨hr0, hr1⟩

/-- Runs of `B_input` keep `expectedseqnum` in `[0, SEQSPACE)`; it is 0 after
`B_init`, so it is in that range in every state reached from `B_init`. -/
theorem receiverRun_expectedseqnum (arr : List Pkt) :
    ∀ (r r1 : Receiver) (evs : List Event),
      0 ≤ r.expectedseqnum → r.expectedseqnum < SEQSPACE →
      receiverRun r arr = .ok (r1, evs) →
      0 ≤ r1.expectedseqnum ∧ r1.expectedseqnum < SEQSPACE := by
  induction arr with
  | nil =>
    intro r r1 evs h0 h1 h
    simp only [receiverRun, Res.ok.injEq, Prod.mk.injEq] at h
    rw [← h.1]; exact ⟨h0, h1⟩
  | cons p ps ih =>
    intro r r2 evs h0 h1 h
    simp only [receiverRun, Res.bind_eq_ok, Res.pure_eq, Res.ok.injEq, Prod.mk.injEq] at h
    obtain ⟨⟨r1, e1⟩, hstep, ⟨r2a, e2⟩, hrest, hr, _⟩ := h
    obtain ⟨hr0, hr1⟩ := B_input_expectedseqnum r r1 p e1 h0 h1 hstep
    rw [← hr]
    exact ih r1 r2a e2 hr0 hr1 hrest

/-! ## C3: the receiver acknowledges every inbound packet -/

/-- C3. For every inbound packet that is corrupted, or valid with `seqnum` in
`[0, SEQSPACE)` (the receiver's `expectedseqnum` being an index of its arrays,
as it is in every state reached from `B_init`, `receiverRun_expectedseqnum`),
`B_input` returns and hands exactly one packet to layer 3; that packet has
`acknum` equal to the inbound `seqnum`, a payload of 20 filler bytes `'.'` and a
checksum equal to `ComputeChecksum` of it, so `IsCorrupted` of it is false. -/
theorem B_input_acknowledges (r : Receiver) (p : Pkt)
    (h : IsCorrupted p = true ∨
      (0 ≤ p.seqnum ∧ p.seqnum < SEQSPACE ∧
        0 ≤ r.expectedseqnum ∧ r.expectedseqnum < SEQSPACE)) :
    ∃ r1 evs ack, B_input r p = .ok (r1, evs) ∧ sent evs = [ack] ∧
      evs.head? = some (Event.tolayer3 .B ack) ∧
      ack.acknum = p.seqnum ∧ ack.payload = Arr.fill 20 46 ∧
      ack.checksum = ComputeChecksum ack ∧ IsCorrupted ack = false := by
  have hack : (mkAckPkt p).checksum = ComputeChecksum (mkAckPkt p) :=
    (IsCorrupted_eq_false _).mp (IsCorrupted_mkAckPkt p)
  cases hv : IsCorrupted p with
  | true =>
    exact ⟨r, _, mkAckPkt p, B_input_corrupted r p hv, rfl, rfl, rfl, rfl, hack,
      IsCorrupted_mkAckPkt p⟩
  | false =>
    rcases h with h | ⟨hs0, hs1, he0, he1⟩
    · rw [hv] at h; cases h
    · obtain ⟨r2, hrun, he, _⟩ := B_input_valid r p hv hs0 hs1
      obtain ⟨r1, evs, hdrain, hevs, _⟩ := drainLoop_returns SEQSPACE r2 (le_refl _)
        (by rw [he]; exact he0) (by rw [he]; exact he1) (by intro i hi hi2; omega)
      refine ⟨r1, Event.tolayer3 .B (mkAckPkt p) :: evs, mkAckPkt p, ?_, ?_, rfl, rfl, rfl,
        hack, IsCorrupted_mkAckPkt p⟩
      · rw [hrun, hdrain]; rfl
      · simp only [sent, sent_tolayer5 evs hevs]

/-- Witness for C3: the first stream packet arriving at the initial receiver. -/
theorem B_input_acknowledges_witness :
    ∃ r1 evs ack, B_input (B_init receiverZero) (letterStream 0) = .ok (r1, evs) ∧
      sent evs = [ack] ∧ ack.acknum = (letterStream 0).seqnum ∧ IsCorrupted ack = false := by
  obtain ⟨r1, evs, ack, h1, h2, _, h3, _, _, h4⟩ :=
    B_input_acknowledges (B_init receiverZero) (letterStream 0)
      (Or.inr ⟨by decide, by decide, by decide, by decide⟩)
  exact ⟨r1, evs, ack, h1, h2, h3, h4⟩

/-! ## In-order delivery under a receive window -/

theorem nextBase_ge (S : List Nat) : ∀ (fuel b : Nat), b ≤ nextBase S fuel b := by
  intro fuel
  induction fuel with
  | zero => intro b; simp [nextBase]
  | succ fuel ih =>
    intro b
    simp only [nextBase]
    split
    · exact le_trans (Nat.le_succ b) (ih (b + 1))
    · exact le_refl b

theorem Arr.fill_rd {α : Type} (n : Nat) (x : α) (i : Int) (h0 : 0 ≤ i) (h1 : i < n) :
    (Arr.fill n x).rd i = .ok x := by
  rw [Arr.rd_eq_ok]
  refine ⟨h0, ?_⟩
  show (List.replicate n x)[i.toNat]? = some x
  rw [List.getElem?_replicate_of_lt (by omega)]

/-- The drain loop on a state that caches the stream packets of `S` from `b` on:
it delivers the packets `b, b + 1, ...` up to the first index not in `S`. -/
theorem drainLoop_caches (strm : Nat → Pkt) (S : List Nat) :
    ∀ (fuel : Nat) (r : Receiver) (b : Nat), fuel ≤ SEQSPACE → Caches strm r S b →
      (∀ k ∈ S, k < b + fuel) →
      ∃ r1, drainLoop fuel r = .ok (r1, (List.range' b (nextBase S fuel b - b)).map
          (fun k => Event.tolayer5 .B (strm k).payload)) ∧
        Caches strm r1 S (nextBase S fuel b) ∧ nextBase S fuel b ∉ S := by
  intro fuel
  induction fuel with
  | zero =>
    intro r b _ hc hbound
    have hb : b ∉ S := fun h => absurd (hbound b h) (by omega)
    obtain ⟨he, hslots⟩ := hc
    have hflag := (hslots 0 (by decide)).1
    simp only [Nat.add_zero, hb, decide_False] at hflag
    refine ⟨r, ?_, ⟨he, hslots⟩, hb⟩
    unfold drainLoop
    simp only [he, hflag, Res.ok_bind, Bool.false_eq_true, if_false, Res.pure_eq, nextBase,
      Nat.sub_self, List.range'_zero, List.map_nil]
  | succ fuel ih =>
    intro r b hfuel hc hbound
    obtain ⟨he, hslots⟩ := hc
    have hflag := (hslots 0 (by decide)).1
    have hstored := (hslots 0 (by decide)).2
    simp only [Nat.add_zero] at hflag hstored
    by_cases hb : b ∈ S
    · simp only [hb, decide_True] at hflag
      have hst := hstored hb
      have hi0 : (0 : Int) ≤ ((b % SEQSPACE : Nat) : Int) := Int.ofNat_nonneg _
      have hi1 : ((b % SEQSPACE : Nat) : Int) < (SEQSPACE : Nat) := by
        simp only [SEQSPACE]; omega
      obtain ⟨flags, hflags⟩ := Arr.wr_in r.pkt_r_acked _ false hi0 hi1
      have hnext : Int.tmod (((b % SEQSPACE : Nat) : Int) + 1) SEQSPACE
          = (((b + 1) % SEQSPACE : Nat) : Int) := by
        rw [tmod_of_nonneg _ _ (by omega)]
        simp only [SEQSPACE]; omega
      have hc2 : Caches strm
          ({ r with pkt_r_acked := flags, expectedseqnum := (((b + 1) % SEQSPACE : Nat) : Int) } :
            Receiver) S (b + 1) := by
        refine ⟨rfl, ?_⟩
        intro i hi
        show flags.rd (((b + 1 + i) % SEQSPACE : Nat) : Int) = .ok (decide (b + 1 + i ∈ S)) ∧
          (b + 1 + i ∈ S → r.pkt_r.rd (((b + 1 + i) % SEQSPACE : Nat) : Int)
            = .ok (strm (b + 1 + i)))
        by_cases hlast : i = 11
        · subst hlast
          have hidx : (((b + 1 + 11) % SEQSPACE : Nat) : Int) = ((b % SEQSPACE : Nat) : Int) := by
            simp only [SEQSPACE]; omega
          have hout : b + 1 + 11 ∉ S := fun h =>
            absurd (hbound _ h) (by simp only [SEQSPACE] at hfuel; omega)
          rw [hidx, Arr.rd_wr_same _ _ _ _ hflags]
          simp [hout]
        · have hne : (((b + 1 + i) % SEQSPACE : Nat) : Int) ≠ ((b % SEQSPACE : Nat) : Int) := by
            simp only [SEQSPACE] at hi ⊢; omega
          rw [Arr.rd_wr_other _ _ _ _ _ hflags hne]
          have hsl := hslots (i + 1) (by simp only [SEQSPACE] at hi ⊢; omega)
          have hre : b + (i + 1) = b + 1 + i := by omega
          rw [hre] at hsl
          exact hsl
      obtain ⟨r1, hrun, hc1, hnot⟩ := ih _ (b + 1) (by omega) hc2
        (fun k hk => by have := hbound k hk; omega)
      have hnb : nextBase S (fuel + 1) b = nextBase S fuel (b + 1) := by
        simp [nextBase, hb]
      have hge := nextBase_ge S fuel (b + 1)
      have hlen : nextBase S fuel (b + 1) - b = (nextBase S fuel (b + 1) - (b + 1)) + 1 := by
        omega
      refine ⟨r1, ?_, by rw [hnb]; exact hc1, by rw [hnb]; exact hnot⟩
      unfold drainLoop
      simp only [he, hflag, Res.ok_bind, if_true, hst, hflags, hnext, hrun, Res.pure_eq, hnb,
        hlen, List.range'_succ, List.map_cons]
    · simp only [hb, decide_False] at hflag
      refine ⟨r, ?_, ?_, ?_⟩
      · unfold drainLoop
        simp only [he, hflag, Res.ok_bind, Bool.false_eq_true, if_false, Res.pure_eq, nextBase,
          hb, Nat.sub_self, List.range'_zero, List.map_nil]
      · simpa [nextBase, hb] using (⟨he, hslots⟩ : Caches strm r S b)
      · simp [nextBase, hb]

theorem delivered_append (e1 e2 : List Event) :
    delivered (e1 ++ e2) = delivered e1 ++ delivered e2 := by
  induction e1 with
  | nil => rfl
  | cons e es ih => cases e <;> simp [delivered, ih]

theorem delivered_map_tolayer5 (f : Nat → Arr Byte 20) (l : List Nat) :
    delivered (l.map (fun k => Event.tolayer5 .B (f k))) = l.map f := by
  induction l with
  | nil => rfl
  | cons k ks ih => simp [delivered, ih]

/-- One in-window copy arriving at a receiver that caches the stream packets of
`S` from `b` on. -/
theorem B_input_copy (strm : Nat → Pkt) (hs : IsStream strm) (r : Receiver) (S : List Nat)
    (b k : Nat) (hc : Caches strm r S b) (hbound : ∀ x ∈ S, x < b + SEQSPACE)
    (hk0 : b ≤ k) (hk1 : k < b + SEQSPACE) :
    ∃ r1, B_input r (strm k) = .ok (r1, Event.tolayer3 .B (mkAckPkt (strm k)) ::
          (List.range' b (nextBase (k :: S) SEQSPACE b - b)).map
            (fun j => Event.tolayer5 .B (strm j).payload)) ∧
      Caches strm r1 (k :: S) (nextBase (k :: S) SEQSPACE b) ∧
      nextBase (k :: S) SEQSPACE b ∉ k :: S ∧
      ∀ x ∈ k :: S, x < nextBase (k :: S) SEQSPACE b + SEQSPACE := by
  obtain ⟨hseq, hv⟩ := hs k
  have hs0 : 0 ≤ (strm k).seqnum := by rw [hseq]; exact Int.ofNat_nonneg _
  have hs1 : (strm k).seqnum < (SEQSPACE : Nat) := by
    rw [hseq]; simp only [SEQSPACE]; omega
  obtain ⟨r2, hrun, he2, _, hset, hflagsO, hcacheO, hcase⟩ :=
    B_input_valid r (strm k) hv hs0 hs1
  obtain ⟨he, hslots⟩ := hc
  have hbound2 : ∀ x ∈ k :: S, x < b + SEQSPACE := by
    intro x hx
    rcases List.mem_cons.mp hx with h | h
    · rw [h]; exact hk1
    · exact hbound x h
  have hc2 : Caches strm r2 (k :: S) b := by
    refine ⟨by rw [he2]; exact he, ?_⟩
    intro i hi
    obtain ⟨hfl, hst⟩ := hslots i hi
    by_cases hik : b + i = k
    · have hidx : (((b + i) % SEQSPACE : Nat) : Int) = (strm k).seqnum := by rw [hseq, hik]
      rw [hidx, hset]
      refine ⟨by simp [hik], fun _ => ?_⟩
      rcases hcase with ⟨hold, hsame, _⟩ | ⟨_, hnew⟩
      · rw [hsame, ← hidx]
        apply hst
        rw [hidx, hold] at hfl
        simpa using hfl.symm
      · rw [hik]; exact hnew
    · have hne : (((b + i) % SEQSPACE : Nat) : Int) ≠ (strm k).seqnum := by
        rw [hseq]; simp only [SEQSPACE] at hi hk1 ⊢; omega
      rw [hflagsO _ hne, hcacheO _ hne, hfl]
      have hmem : b + i ∈ k :: S ↔ b + i ∈ S := by simp [hik]
      refine ⟨by simp [hik], fun h => hst (hmem.mp h)⟩
  obtain ⟨r1, hdrain, hc1, hnot⟩ := drainLoop_caches strm (k :: S) SEQSPACE r2 b (le_refl _)
    hc2 hbound2
  have hge := nextBase_ge (k :: S) SEQSPACE b
  refine ⟨r1, ?_, hc1, hnot, fun x hx => by have := hbound2 x hx; omega⟩
  rw [hrun, hdrain]
  rfl

/-- Arrivals that respect the receive window are delivered in stream order. -/
theorem receiverRun_inWindow (strm : Nat → Pkt) (hs : IsStream strm) :
    ∀ (arr : List Arrival) (r : Receiver) (S : List Nat) (b : Nat),
      Caches strm r S b → (∀ x ∈ S, x < b + SEQSPACE) → inWindow S b arr = true →
      ∃ r1 evs n, receiverRun r (arr.map (Arrival.pkt strm)) = .ok (r1, evs) ∧
        delivered evs = (List.range' b n).map (fun k => (strm k).payload) := by
  intro arr
  induction arr with
  | nil =>
    intro r S b _ _ _
    exact ⟨r, [], 0, rfl, rfl⟩
  | cons a rest ih =>
    intro r S b hc hbound hw
    cases a with
    | noise p =>
      simp only [inWindow, Bool.and_eq_true] at hw
      obtain ⟨r1, evs, n, hrun, hdel⟩ := ih r S b hc hbound hw.2
      refine ⟨r1, Event.tolayer3 .B (mkAckPkt p) :: evs, n, ?_, ?_⟩
      · simp only [List.map_cons, Arrival.pkt, receiverRun, B_input_corrupted r p hw.1,
          Res.ok_bind, hrun, Res.pure_eq, List.singleton_append]
      · simpa [delivered] using hdel
    | copy k =>
      simp only [inWindow, Bool.and_eq_true, decide_eq_true_eq] at hw
      obtain ⟨⟨hk0, hk1⟩, hrest⟩ := hw
      obtain ⟨r1, hstep, hc1, _, hbound1⟩ := B_input_copy strm hs r S b k hc hbound hk0 hk1
      obtain ⟨r2, evs, n, hrun, hdel⟩ := ih r1 (k :: S) _ hc1 hbound1 hrest
      have hge := nextBase_ge (k :: S) SEQSPACE b
      refine ⟨r2, (Event.tolayer3 .B (mkAckPkt (strm k)) ::
          (List.range' b (nextBase (k :: S) SEQSPACE b - b)).map
            (fun j => Event.tolayer5 .B (strm j).payload)) ++ evs,
        n + (nextBase (k :: S) SEQSPACE b - b), ?_, ?_⟩
      · simp only [List.map_cons, Arrival.pkt, receiverRun, hstep, Res.ok_bind, hrun, Res.pure_eq]
      · have hsplit : b + (nextBase (k :: S) SEQSPACE b - b) = nextBase (k :: S) SEQSPACE b := by
          omega
        rw [← List.range'_append_1, List.map_append, hsplit, ← hdel, List.cons_append]
        show delivered (_ ++ evs) = _
        rw [delivered_append, delivered_map_tolayer5 (fun j => (strm j).payload)]

theorem letterStream_isStream : IsStream letterStream :=
  fun _ => ⟨rfl, IsCorrupted_mkDataPkt _ _⟩

theorem deliveredBy_ok (x : Res (Receiver × List Event)) (r : Receiver) (evs : List Event)
    (h : x = .ok (r, evs)) : deliveredBy x = some (delivered evs) := by
  subst h; rfl

/-! ## C1: in-order delivery -/

/-- C1, counterexample. The stream is the emulator's: packet `k` carries twenty
times the letter `'a' + k mod 26` and sequence number `k mod 12`.
(1) Packet 0 arrives twice, then packets 1 to 11: the receiver delivers
`m_0, ..., m_11` and then `m_0` a second time, because the second copy of
packet 0 was cached again after slot 0 had been delivered and cleared.
(2) Packet 12 arrives first: the receiver delivers `m_12` at once.
In both runs every arrival is a copy of a stream packet and the delivered list
is not `m_0, ..., m_(n-1)` for any `n`. -/
theorem in_order_delivery_fails :
    IsStream letterStream ∧
    deliveredBy (receiverRun (B_init receiverZero)
        (duplicateThenRest.map (Arrival.pkt letterStream)))
      = some ((List.range 12).map (fun k => (letterStream k).payload)
          ++ [(letterStream 0).payload]) ∧
    (¬ ∃ r1 evs n, receiverRun (B_init receiverZero)
        (duplicateThenRest.map (Arrival.pkt letterStream)) = .ok (r1, evs) ∧
        delivered evs = (List.range n).map (fun k => (letterStream k).payload)) ∧
    deliveredBy (receiverRun (B_init receiverZero) [letterStream 12])
      = some [(letterStream 12).payload] ∧
    (¬ ∃ r1 evs n, receiverRun (B_init receiverZero) [letterStream 12] = .ok (r1, evs) ∧
        delivered evs = (List.range n).map (fun k => (letterStream k).payload)) := by
  have h1 : deliveredBy (receiverRun (B_init receiverZero)
        (duplicateThenRest.map (Arrival.pkt letterStream)))
      = some ((List.range 12).map (fun k => (letterStream k).payload)
          ++ [(letterStream 0).payload]) := by decide!
  have h2 : deliveredBy (receiverRun (B_init receiverZero) [letterStream 12])
      = some [(letterStream 12).payload] := by decide!
  refine ⟨letterStream_isStream, h1, ?_, h2, ?_⟩
  · rintro ⟨r1, evs, n, hrun, hdel⟩
    rw [deliveredBy_ok _ r1 evs hrun, hdel] at h1
    have hlen := congrArg (fun o => o.map List.length) h1
    simp at hlen
    subst hlen
    revert h1
    decide!
  · rintro ⟨r1, evs, n, hrun, hdel⟩
    rw [deliveredBy_ok _ r1 evs hrun, hdel] at h2
    have hlen := congrArg (fun o => o.map List.length) h2
    simp at hlen
    subst hlen
    revert h2
    decide!

/-- C1, amended. Let packet `k` of the stream have `seqnum` `k mod SEQSPACE` and
a correct checksum, and start from a receiver with `expectedseqnum = 0` and all
received-flags false.  For every finite sequence of arrivals made of corrupted
packets and of copies of stream packets, possibly out of order and duplicated,
in which every copy is of a packet `k` with `b ≤ k < b + SEQSPACE`, `b` being
the first stream index that has not arrived before, `B_input` returns on every
arrival and the payloads handed to `tolayer5` are exactly
`m_0, m_1, ..., m_(n-1)` for some `n`. -/
theorem in_order_delivery (strm : Nat → Pkt) (hs : IsStream strm) (r0 : Receiver)
    (he : r0.expectedseqnum = 0) (hflags : r0.pkt_r_acked = Arr.fill SEQSPACE false)
    (arr : List Arrival) (hw : inWindow [] 0 arr = true) :
    ∃ r1 evs n, receiverRun r0 (arr.map (Arrival.pkt strm)) = .ok (r1, evs) ∧
      delivered evs = (List.range n).map (fun k => (strm k).payload) := by
  have hc : Caches strm r0 [] 0 := by
    refine ⟨by rw [he]; rfl, ?_⟩
    intro i hi
    rw [hflags]
    refine ⟨?_, by simp⟩
    rw [Arr.fill_rd _ _ _ (Int.ofNat_nonneg _) (by simp only [SEQSPACE] at hi ⊢; omega)]
    simp
  obtain ⟨r1, evs, n, hrun, hdel⟩ := receiverRun_inWindow strm hs arr r0 [] 0 hc (by simp) hw
  exact ⟨r1, evs, n, hrun, by rw [hdel, List.range_eq_range']⟩

/-- Witness for C1 (amended): packets 2, 0, 2 again, a corrupted packet, then 1. -/
theorem in_order_delivery_witness :
    ∃ r1 evs n, receiverRun (B_init receiverZero)
        (reorderedArrivals.map (Arrival.pkt letterStream)) = .ok (r1, evs) ∧
      delivered evs = (List.range n).map (fun k => (letterStream k).payload) :=
  in_order_delivery letterStream letterStream_isStream (B_init receiverZero) rfl rfl
    reorderedArrivals (by decide)

/-! ## C11: an interior acknowledgment does not move the window -/

/-- C11. For a valid acknowledgment whose slot is not yet marked and whose `acknum`
differs from the `seqnum` of the packet at `buffer[windowfirst]`, `A_input`
returns; it marks slot `acknum` and no other slot, increments `new_ACKs` by one,
leaves `windowfirst`, `windowcount`, `windowlast`, `buffer` and every other
field unchanged, and makes no emulator call, so no timer stop or start. -/
theorem A_input_interior (s : Sender) (p first : Pkt) (hv : IsCorrupted p = false)
    (hnew : s.acked.rd p.acknum = .ok false)
    (hfirst : s.buffer.rd s.windowfirst = .ok first)
    (hne : p.acknum ≠ first.seqnum) :
    ∃ acked1, s.acked.wr p.acknum true = .ok acked1 ∧
      A_input s p = .ok ({ s with new_ACKs := s.new_ACKs + 1, acked := acked1 }, []) ∧
      acked1.rd p.acknum = .ok true ∧
      ∀ j : Int, j ≠ p.acknum → acked1.rd j = s.acked.rd j := by
  obtain ⟨h0, h1⟩ := Arr.rd_ok_bounds _ _ _ hnew
  obtain ⟨acked1, hw⟩ := Arr.wr_in s.acked p.acknum true h0 h1
  refine ⟨acked1, hw, ?_, Arr.rd_wr_same _ _ _ _ hw,
    fun j hj => Arr.rd_wr_other _ _ _ _ _ hw hj⟩
  simp [A_input, hv, hnew, hw, hfirst, hne]

/-- Witness for C11: the acknowledgment for 3 while packet 0 is the left edge. -/
theorem A_input_interior_witness :
    ∃ acked1, senderOneInFlight.acked.wr (ackFor 3).acknum true = .ok acked1 ∧
      A_input senderOneInFlight (ackFor 3)
        = .ok ({ senderOneInFlight with
                  new_ACKs := senderOneInFlight.new_ACKs + 1, acked := acked1 }, []) ∧
      acked1.rd (ackFor 3).acknum = .ok true ∧
      ∀ j : Int, j ≠ (ackFor 3).acknum → acked1.rd j = senderOneInFlight.acked.rd j :=
  A_input_interior senderOneInFlight (ackFor 3) (mkDataPkt 0 (fillMsg 97))
    (by decide) (by decide) (by decide) (by decide)

/-! ## C12: retransmission on timeout -/

/-- C12. For every sender state (with `windowfirst` an index of the buffer),
`A_timerinterrupt` hands exactly one packet to layer 3, the packet stored at
`buffer[windowfirst]` with all its fields, checksum included; it increments
`packets_resent` by one, calls `starttimer` with `RTT` if and only if
`windowcount > 0`, and leaves every other field unchanged. -/
theorem A_timerinterrupt_resends (s : Sender) (first : Pkt)
    (hfirst : s.buffer.rd s.windowfirst = .ok first) :
    A_timerinterrupt s =
      .ok ({ s with packets_resent := s.packets_resent + 1 },
        Event.tolayer3 .A first ::
          (if s.windowcount > 0 then [Event.starttimer .A RTT] else [])) := by
  simp [A_timerinterrupt, hfirst]

/-- Witness for C12: the timer goes off with packet 0 in flight. -/
theorem A_timerinterrupt_resends_witness :
    A_timerinterrupt senderOneInFlight =
      .ok ({ senderOneInFlight with packets_resent := senderOneInFlight.packets_resent + 1 },
        Event.tolayer3 .A (mkDataPkt 0 (fillMsg 97)) ::
          (if senderOneInFlight.windowcount > 0 then [Event.starttimer .A RTT] else [])) :=
  A_timerinterrupt_resends senderOneInFlight (mkDataPkt 0 (fillMsg 97)) (by decide)

/-! ## C13: a corrupted data packet at the receiver -/

/-- C13. For every receiver state and every packet whose checksum field differs
from `ComputeChecksum`, `B_input` returns the state unchanged (cache, flags,
`expectedseqnum` and `packets_received`), delivers nothing to layer 5, and its
only emulator call is `tolayer3` of the acknowledgment echoing the packet's
`seqnum`. -/
theorem B_input_corrupted_only_acks (r : Receiver) (p : Pkt)
    (hbad : p.checksum ≠ ComputeChecksum p) :
    B_input r p = .ok (r, [Event.tolayer3 .B (mkAckPkt p)]) ∧
      delivered [Event.tolayer3 .B (mkAckPkt p)] = [] ∧
      (mkAckPkt p).acknum = p.seqnum :=
  ⟨B_input_corrupted r p ((IsCorrupted_eq_true p).mpr hbad), rfl, rfl⟩

/-- Witness for C13: a stream packet whose checksum was overwritten. -/
theorem B_input_corrupted_only_acks_witness :
    B_input (B_init receiverZero) { letterStream 5 with checksum := 0 }
      = .ok (B_init receiverZero,
          [Event.tolayer3 .B (mkAckPkt { letterStream 5 with checksum := 0 })]) :=
  (B_input_corrupted_only_acks (B_init receiverZero) { letterStream 5 with checksum := 0 }
    (by decide)).1

/-! ## What the drain loop delivers -/

/-- The drain loop, started with `fuel` iterations left on a state whose slots
`expectedseqnum + i`, `fuel ≤ i < SEQSPACE`, are clear, runs `n ≤ fuel`
iterations: the slots `expectedseqnum + k`, `k < n`, were marked, their stored
payloads are delivered in order and their flags cleared, the next slot was not
marked, the other flags and the cache are unchanged. -/
theorem drainLoop_spec :
    ∀ (fuel : Nat) (r : Receiver), fuel ≤ SEQSPACE →
      0 ≤ r.expectedseqnum → r.expectedseqnum < SEQSPACE →
      (∀ i : Nat, fuel ≤ i → i < SEQSPACE →
        r.pkt_r_acked.rd ((r.expectedseqnum + i) % SEQSPACE) = .ok false) →
      ∃ (n : Nat) (r1 : Receiver) (evs : List Event), n ≤ fuel ∧
        drainLoop fuel r = .ok (r1, evs) ∧ evs.length = n ∧
        (∀ k : Nat, k < n →
          r.pkt_r_acked.rd ((r.expectedseqnum + k) % SEQSPACE) = .ok true ∧
          ∃ q, r.pkt_r.rd ((r.expectedseqnum + k) % SEQSPACE) = .ok q ∧
            evs[k]? = some (Event.tolayer5 .B q.payload)) ∧
        (n < SEQSPACE → r.pkt_r_acked.rd ((r.expectedseqnum + n) % SEQSPACE) = .ok false) ∧
        r1.expectedseqnum = (r.expectedseqnum + n) % SEQSPACE ∧
        r1.pkt_r = r.pkt_r ∧ r1.packets_received = r.packets_received ∧
        (∀ k : Nat, k < n →
          r1.pkt_r_acked.rd ((r.expectedseqnum + k) % SEQSPACE) = .ok false) ∧
        (∀ j : Int, (∀ k : Nat, k < n → j ≠ (r.expectedseqnum + k) % SEQSPACE) →
          r1.pkt_r_acked.rd j = r.pkt_r_acked.rd j) ∧
        r1.pkt_r_acked.rd r1.expectedseqnum = .ok false := by
  intro fuel
  induction fuel with
  | zero =>
    intro r _ h0 h1 hclear
    have hself : (r.expectedseqnum + (0 : Nat)) % (SEQSPACE : Int) = r.expectedseqnum := by
      simp only [SEQSPACE] at h1 ⊢; omega
    have hf := hclear 0 (le_refl _) (by decide)
    refine ⟨0, r, [], le_refl _, ?_, rfl, fun k hk => absurd hk (Nat.not_lt_zero k),
      fun _ => hf, hself.symm, rfl, rfl, fun k hk => absurd hk (Nat.not_lt_zero k),
      fun _ _ => rfl, by rw [← hself]; exact hf⟩
    rw [hself] at hf
    unfold drainLoop
    simp [hf]
  | succ fuel ih =>
    intro r hfuel h0 h1 hclear
    have hself : (r.expectedseqnum + (0 : Nat)) % (SEQSPACE : Int) = r.expectedseqnum := by
      simp only [SEQSPACE] at h1 ⊢; omega
    obtain ⟨flag, hflag⟩ := Arr.rd_in r.pkt_r_acked r.expectedseqnum h0 h1
    cases flag with
    | false =>
      refine ⟨0, r, [], Nat.zero_le _, ?_, rfl, fun k hk => absurd hk (Nat.not_lt_zero k),
        fun _ => by rw [hself]; exact hflag, hself.symm, rfl, rfl,
        fun k hk => absurd hk (Nat.not_lt_zero k), fun _ _ => rfl, hflag⟩
      unfold drainLoop
      simp [hflag]
    | true =>
      obtain ⟨stored, hstored⟩ := Arr.rd_in r.pkt_r r.expectedseqnum h0 h1
      obtain ⟨flags, hflags⟩ := Arr.wr_in r.pkt_r_acked r.expectedseqnum false h0 h1
      have hnext : Int.tmod (r.expectedseqnum + 1) SEQSPACE = (r.expectedseqnum + 1) % SEQSPACE :=
        tmod_of_nonneg _ _ (by omega)
      have hn0 : 0 ≤ (r.expectedseqnum + 1) % (SEQSPACE : Int) := Int.emod_nonneg _ (by decide)
      have hn1 : (r.expectedseqnum + 1) % (SEQSPACE : Int) < (SEQSPACE : Nat) :=
        Int.emod_lt_of_pos _ (by decide)
      have hidx : ∀ i : Nat, ((r.expectedseqnum + 1) % (SEQSPACE : Int) + i) % (SEQSPACE : Int)
          = (r.expectedseqnum + ((i + 1 : Nat) : Int)) % (SEQSPACE : Int) := by
        intro i; simp only [SEQSPACE]; omega
      have hne : ∀ i : Nat, i + 1 < SEQSPACE →
          (r.expectedseqnum + ((i + 1 : Nat) : Int)) % (SEQSPACE : Int) ≠ r.expectedseqnum := by
        intro i hi; simp only [SEQSPACE] at h1 hi ⊢; omega
      have hwrap : (r.expectedseqnum + ((11 + 1 : Nat) : Int)) % (SEQSPACE : Int)
          = r.expectedseqnum := by
        simp only [SEQSPACE] at h1 ⊢; omega
      obtain ⟨n, r1, evs, hn, hrun, hlen, hmarked, hstop, he1, hp1, hc1, hcleared, hother,
          hlast⟩ := ih
        { r with pkt_r_acked := flags,
                 expectedseqnum := (r.expectedseqnum + 1) % SEQSPACE }
        (by omega) hn0 hn1
        (by
          intro i hi hi12
          show flags.rd (((r.expectedseqnum + 1) % (SEQSPACE : Int) + i) % (SEQSPACE : Int))
            = .ok false
          rw [hidx]
          by_cases hlast : i = 11
          · subst hlast
            rw [hwrap]
            exact Arr.rd_wr_same _ _ _ _ hflags
          · have hi1 : i + 1 < SEQSPACE := by simp only [SEQSPACE] at hi12 ⊢; omega
            rw [Arr.rd_wr_other _ _ _ _ _ hflags (hne i hi1)]
            exact hclear (i + 1) (by omega) hi1)
      have hn11 : ∀ k : Nat, k < n → k + 1 < SEQSPACE := by
        intro k hk; simp only [SEQSPACE] at hfuel ⊢; omega
      refine ⟨n + 1, r1, Event.tolayer5 .B stored.payload :: evs, by omega, ?_, by simp [hlen],
        ?_, ?_, ?_, hp1, hc1, ?_, ?_, hlast⟩
      · unfold drainLoop
        simp only [hflag, Res.ok_bind, if_true, hstored, hflags, hnext, hrun, Res.pure_eq]
      · intro k hk
        cases k with
        | zero =>
          rw [hself]
          exact ⟨hflag, stored, hstored, by simp⟩
        | succ k =>
          obtain ⟨hm, q, hq, hev⟩ := hmarked k (by omega)
          have hm2 : flags.rd (((r.expectedseqnum + 1) % (SEQSPACE : Int) + k) % (SEQSPACE : Int))
              = .ok true := hm
          have hq2 : r.pkt_r.rd (((r.expectedseqnum + 1) % (SEQSPACE : Int) + k)
              % (SEQSPACE : Int)) = .ok q := hq
          rw [hidx] at hm2 hq2
          rw [Arr.rd_wr_other _ _ _ _ _ hflags (hne k (hn11 k (by omega)))] at hm2
          exact ⟨hm2, q, hq2, by simpa using hev⟩
      · intro hlt
        have hs := hstop (by omega)
        have hs2 : flags.rd (((r.expectedseqnum + 1) % (SEQSPACE : Int) + n) % (SEQSPACE : Int))
            = .ok false := hs
        rw [hidx, Arr.rd_wr_other _ _ _ _ _ hflags (hne n hlt)] at hs2
        exact hs2
      · have he2 : r1.expectedseqnum
            = ((r.expectedseqnum + 1) % (SEQSPACE : Int) + n) % (SEQSPACE : Int) := he1
        rw [he2, hidx]
      · intro k hk
        cases k with
        | zero =>
          rw [hself]
          have hkeep := hother r.expectedseqnum (by
            intro k hk
            show r.expectedseqnum
              ≠ ((r.expectedseqnum + 1) % (SEQSPACE : Int) + k) % (SEQSPACE : Int)
            rw [hidx]
            exact (hne k (hn11 k hk)).symm)
          rw [hkeep]
          exact Arr.rd_wr_same _ _ _ _ hflags
        | succ k =>
          have hc := hcleared k (by omega)
          have hc2 : r1.pkt_r_acked.rd (((r.expectedseqnum + 1) % (SEQSPACE : Int) + k)
              % (SEQSPACE : Int)) = .ok false := hc
          rw [hidx] at hc2
          exact hc2
      · intro j hj
        have hj0 : j ≠ r.expectedseqnum := by
          have := hj 0 (by omega)
          rw [hself] at this
          exact this
        have hkeep := hother j (by
          intro k hk
          show j ≠ ((r.expectedseqnum + 1) % (SEQSPACE : Int) + k) % (SEQSPACE : Int)
          rw [hidx]
          exact hj (k + 1) (by omega))
        rw [hkeep]
        exact Arr.rd_wr_other _ _ _ _ _ hflags hj0

/-- A larger budget does not change what the drain loop returns. -/
theorem drainLoop_more_fuel :
    ∀ (fuel : Nat) (r : Receiver) (x : Receiver × List Event),
      drainLoop fuel r = .ok x → ∀ extra : Nat, drainLoop (fuel + extra) r = .ok x := by
  intro fuel
  induction fuel with
  | zero =>
    intro r x h extra
    unfold drainLoop at h ⊢
    cases hf : r.pkt_r_acked.rd r.expectedseqnum with
    | outOfBounds => simp [hf] at h
    | outOfFuel => simp [hf] at h
    | ok flag =>
      cases flag with
      | false => simpa [hf] using h
      | true => simp [hf] at h
  | succ fuel ih =>
    intro r x h extra
    have hadd : fuel + 1 + extra = (fuel + extra) + 1 := by omega
    rw [hadd]
    unfold drainLoop at h ⊢
    cases hf : r.pkt_r_acked.rd r.expectedseqnum with
    | outOfBounds => simp [hf] at h
    | outOfFuel => simp [hf] at h
    | ok flag =>
      cases flag with
      | false => simpa [hf] using h
      | true =>
        simp only [hf, Res.ok_bind, if_true, Res.bind_eq_ok, Res.pure_eq, Res.ok.injEq] at h ⊢
        obtain ⟨stored, hst, flags, hfl, y, hy, hx⟩ := h
        exact ⟨stored, hst, flags, hfl, y, ih _ y hy extra, hx⟩

/-! ## C19: the drain loop of `B_input` -/

/-- C19. For a receiver state with `expectedseqnum = e` in `[0, SEQSPACE)` and a
valid packet with `seqnum` in `[0, SEQSPACE)`, let `r2` be the state after the
caching step.  The drain loop returns within `SEQSPACE` iterations (and returns
the same with any larger budget): it runs `n ≤ SEQSPACE` iterations, where the
slots `e, e + 1, ..., e + n - 1` (mod `SEQSPACE`) are marked in `r2` and, if
`n < SEQSPACE`, slot `e + n` is not; it hands the stored payloads of these `n`
slots to layer 5 in order, clears these `n` flags and no other, keeps the
cache, and sets `expectedseqnum` to `(e + n) mod SEQSPACE`; afterwards the slot
at `expectedseqnum` is not marked. -/
theorem B_input_drains (r : Receiver) (p : Pkt) (hv : IsCorrupted p = false)
    (hs0 : 0 ≤ p.seqnum) (hs1 : p.seqnum < SEQSPACE)
    (he0 : 0 ≤ r.expectedseqnum) (he1 : r.expectedseqnum < SEQSPACE) :
    ∃ (r2 r3 : Receiver) (n : Nat) (evs : List Event),
      r2.expectedseqnum = r.expectedseqnum ∧
      r2.pkt_r_acked.rd p.seqnum = .ok true ∧
      (∀ j : Int, j ≠ p.seqnum → r2.pkt_r_acked.rd j = r.pkt_r_acked.rd j) ∧
      (∀ j : Int, j ≠ p.seqnum → r2.pkt_r.rd j = r.pkt_r.rd j) ∧
      ((r.pkt_r_acked.rd p.seqnum = .ok true ∧ r2.pkt_r = r.pkt_r) ∨
        (r.pkt_r_acked.rd p.seqnum = .ok false ∧ r2.pkt_r.rd p.seqnum = .ok p)) ∧
      B_input r p = .ok (r3, Event.tolayer3 .B (mkAckPkt p) :: evs) ∧
      (∀ fuel : Nat, SEQSPACE ≤ fuel → drainLoop fuel r2 = .ok (r3, evs)) ∧
      n ≤ SEQSPACE ∧ evs.length = n ∧
      (∀ k : Nat, k < n →
        r2.pkt_r_acked.rd ((r.expectedseqnum + k) % SEQSPACE) = .ok true ∧
        ∃ q, r2.pkt_r.rd ((r.expectedseqnum + k) % SEQSPACE) = .ok q ∧
          evs[k]? = some (Event.tolayer5 .B q.payload)) ∧
      (n < SEQSPACE → r2.pkt_r_acked.rd ((r.expectedseqnum + n) % SEQSPACE) = .ok false) ∧
      (∀ k : Nat, k < n →
        r3.pkt_r_acked.rd ((r.expectedseqnum + k) % SEQSPACE) = .ok false) ∧
      (∀ j : Int, (∀ k : Nat, k < n → j ≠ (r.expectedseqnum + k) % SEQSPACE) →
        r3.pkt_r_acked.rd j = r2.pkt_r_acked.rd j) ∧
      r3.pkt_r = r2.pkt_r ∧
      r3.expectedseqnum = (r.expectedseqnum + n) % SEQSPACE ∧
      r3.pkt_r_acked.rd r3.expectedseqnum = .ok false := by
  obtain ⟨r2, hrun, he, _, hset, hfo, hco, hcase⟩ := B_input_valid r p hv hs0 hs1
  obtain ⟨n, r3, evs, hn, hdrain, hlen, hmarked, hstop, he3, hp3, _, hcleared, hother, hlast⟩ :=
    drainLoop_spec SEQSPACE r2 (le_refl _) (by rw [he]; exact he0) (by rw [he]; exact he1)
      (by intro i hi hi2; omega)
  rw [he] at hmarked hstop he3 hcleared hother
  refine ⟨r2, r3, n, evs, he, hset, hfo, hco, ?_, ?_, ?_, hn, hlen, hmarked, hstop, hcleared,
    hother, hp3, he3, hlast⟩
  · rcases hcase with ⟨h1, h2, _⟩ | h
    · exact Or.inl ⟨h1, h2⟩
    · exact Or.inr h
  · rw [hrun, hdrain]; rfl
  · intro fuel hfuel
    have := drainLoop_more_fuel SEQSPACE r2 (r3, evs) hdrain (fuel - SEQSPACE)
    rwa [Nat.add_sub_cancel' hfuel] at this

/-- Witness for C19: packet 0 arrives at the initial receiver. -/
theorem B_input_drains_witness :
    ∃ r3 evs,
      B_input (B_init receiverZero) (letterStream 0)
        = .ok (r3, Event.tolayer3 .B (mkAckPkt (letterStream 0)) :: evs) ∧
      evs.length ≤ SEQSPACE ∧ r3.pkt_r_acked.rd r3.expectedseqnum = .ok false := by
  obtain ⟨_, r3, n, evs, _, _, _, _, _, h, _, hn, hlen, _, _, _, _, _, _, hlast⟩ :=
    B_input_drains (B_init receiverZero) (letterStream 0) (by decide) (by decide)
      (by decide) (by decide) (by decide)
  exact ⟨r3, evs, h, by rw [hlen]; exact hn, hlast⟩

/-! ## C15: a duplicate of a cached packet is not stored again -/

/-- After `B_input` the slot at `expectedseqnum` is not marked, if that held
before or the packet was valid. -/
theorem B_input_expected_clear (r r1 : Receiver) (p : Pkt) (evs : List Event)
    (h0 : 0 ≤ r.expectedseqnum) (h1 : r.expectedseqnum < SEQSPACE)
    (hclear : r.pkt_r_acked.rd r.expectedseqnum = .ok false)
    (h : B_input r p = .ok (r1, evs)) :
    r1.pkt_r_acked.rd r1.expectedseqnum = .ok false := by
  cases hv : IsCorrupted p with
  | true =>
    rw [B_input_corrupted r p hv] at h
    cases h
    exact hclear
  | false =>
    have hrange : 0 ≤ p.seqnum ∧ p.seqnum < SEQSPACE := by
      cases hf : r.pkt_r_acked.rd p.seqnum with
      | ok flag => exact Arr.rd_ok_bounds _ _ _ hf
      | outOfBounds => simp [B_input, hv, hf] at h
      | outOfFuel => exact absurd hf (Arr.rd_ne_fuel _ _)
    obtain ⟨r2, hrun, he, _⟩ := B_input_valid r p hv hrange.1 hrange.2
    obtain ⟨n, r3, evs3, _, hdrain, _, _, _, _, _, _, _, _, hlast⟩ :=
      drainLoop_spec SEQSPACE r2 (le_refl _) (by rw [he]; exact h0) (by rw [he]; exact h1)
        (by intro i hi hi2; omega)
    rw [hrun, hdrain] at h
    cases h
    exact hlast

/-- In every receiver state reached by `B_input` calls from a state whose slot at
`expectedseqnum` is not marked, the slot at `expectedseqnum` is not marked. -/
theorem receiverRun_expected_clear (arr : List Pkt) :
    ∀ (r r1 : Receiver) (evs : List Event),
      0 ≤ r.expectedseqnum → r.expectedseqnum < SEQSPACE →
      r.pkt_r_acked.rd r.expectedseqnum = .ok false →
      receiverRun r arr = .ok (r1, evs) →
      r1.pkt_r_acked.rd r1.expectedseqnum = .ok false := by
  induction arr with
  | nil =>
    intro r r1 evs _ _ hclear h
    simp only [receiverRun, Res.ok.injEq, Prod.mk.injEq] at h
    rw [← h.1]; exact hclear
  | cons p ps ih =>
    intro r r2 evs h0 h1 hclear h
    simp only [receiverRun, Res.bind_eq_ok, Res.pure_eq, Res.ok.injEq, Prod.mk.injEq] at h
    obtain ⟨⟨r1, e1⟩, hstep, ⟨r2a, e2⟩, hrest, hr, _⟩ := h
    obtain ⟨hr0, hr1⟩ := B_input_expectedseqnum r r1 p e1 h0 h1 hstep
    rw [← hr]
    exact ih r1 r2a e2 hr0 hr1 (B_input_expected_clear r r1 p e1 h0 h1 hclear hstep) hrest

/-- C15. In every receiver state `r` reached by `B_input` calls from `B_init` on
storage with all received-flags false, if a valid packet arrives whose `seqnum`
names a slot already marked received (so it is in `[0, SEQSPACE)`), `B_input`
returns and leaves the
cache, every received-flag and `expectedseqnum` unchanged, delivers nothing to
layer 5, and only increments `packets_received` and sends the acknowledgment
for that `seqnum`. -/
theorem B_input_duplicate (r0 r : Receiver) (arr : List Pkt) (evs0 : List Event) (p : Pkt)
    (hinit : r0.pkt_r_acked = Arr.fill SEQSPACE false)
    (hreach : receiverRun (B_init r0) arr = .ok (r, evs0))
    (hv : IsCorrupted p = false) (hdup : r.pkt_r_acked.rd p.seqnum = .ok true) :
    B_input r p = .ok ({ r with packets_received := r.packets_received + 1 },
        [Event.tolayer3 .B (mkAckPkt p)]) ∧
      (mkAckPkt p).acknum = p.seqnum := by
  have hclear0 : (B_init r0).pkt_r_acked.rd (B_init r0).expectedseqnum = .ok false := by
    show r0.pkt_r_acked.rd 0 = .ok false
    rw [hinit]
    exact Arr.fill_rd _ _ _ (by decide) (by decide)
  have hclear := receiverRun_expected_clear arr (B_init r0) r evs0
    (by show (0 : Int) ≤ 0; decide) (by show (0 : Int) < (SEQSPACE : Nat); decide)
    hclear0 hreach
  refine ⟨?_, rfl⟩
  have hdrain : drainLoop SEQSPACE { r with packets_received := r.packets_received + 1 }
      = .ok ({ r with packets_received := r.packets_received + 1 }, []) := by
    unfold drainLoop
    simp [hclear]
  simp [B_input, hv, hdup, hdrain]

/-- Witness for C15: packet 1 arrives a second time while it is cached. -/
theorem B_input_duplicate_witness :
    receiverRun (B_init receiverZero) [letterStream 1]
        = .ok (receiverOneCached, [Event.tolayer3 .B (mkAckPkt (letterStream 1))]) ∧
      B_input receiverOneCached (letterStream 1)
        = .ok ({ receiverOneCached with
                  packets_received := receiverOneCached.packets_received + 1 },
            [Event.tolayer3 .B (mkAckPkt (letterStream 1))]) :=
  ⟨by decide,
    (B_input_duplicate receiverZero receiverOneCached [letterStream 1]
      [Event.tolayer3 .B (mkAckPkt (letterStream 1))] (letterStream 1) rfl (by decide)
      (by decide) (by decide)).1⟩

/-! ## C17: the checksum reacts to every change of a single field -/

theorem u32_injective (a b : Int) (ha : IsInt32 a) (hb : IsInt32 b) (h : u32 a = u32 b) :
    a = b := by
  unfold IsInt32 at ha hb
  unfold u32 at h
  omega

/-- The checksum pattern is the exclusive or of the payload part with the
patterns of `seqnum` and `acknum`. -/
theorem u32_ComputeChecksum_header (p : Pkt) :
    u32 (ComputeChecksum p) = (List.range 20).foldl
      (fun n i => n ^^^ byteTerm i (p.payload.val.getD i 0)) 0
      ^^^ (u32 p.seqnum ^^^ u32 p.acknum) := by
  rw [u32_ComputeChecksum, u32_xor32, u32_xor32]
  have h0 : u32 0 = 0 := by decide
  rw [h0, Nat.zero_xor, ← fold_xor_shift, Nat.zero_xor]

theorem ComputeChecksum_seqnum_ne (p : Pkt) (a : Int) (hp : IsInt32 p.seqnum) (ha : IsInt32 a)
    (hne : a ≠ p.seqnum) :
    ComputeChecksum { p with seqnum := a } ≠ ComputeChecksum p := by
  intro h
  have hu := congrArg u32 h
  rw [u32_ComputeChecksum_header, u32_ComputeChecksum_header] at hu
  have h1 : u32 a ^^^ u32 p.acknum = u32 p.seqnum ^^^ u32 p.acknum :=
    Nat.xor_right_injective hu
  exact hne (u32_injective a p.seqnum ha hp (Nat.xor_left_injective h1))

theorem ComputeChecksum_acknum_ne (p : Pkt) (a : Int) (hp : IsInt32 p.acknum) (ha : IsInt32 a)
    (hne : a ≠ p.acknum) :
    ComputeChecksum { p with acknum := a } ≠ ComputeChecksum p := by
  intro h
  have hu := congrArg u32 h
  rw [u32_ComputeChecksum_header, u32_ComputeChecksum_header] at hu
  have h1 : u32 p.seqnum ^^^ u32 a = u32 p.seqnum ^^^ u32 p.acknum :=
    Nat.xor_right_injective hu
  exact hne (u32_injective a p.acknum ha hp (Nat.xor_right_injective h1))

/-- C17. For every packet `p`: replacing payload byte `i < 20` by any different
byte value (so in particular flipping one bit of it) changes `ComputeChecksum`;
replacing only `seqnum`, or only `acknum`, by a different `int` value changes
`ComputeChecksum`.  Hence, if `p` is stamped (its checksum field equals
`ComputeChecksum p`), the packet with exactly one of these fields altered and
the checksum field kept is classified as corrupted. -/
theorem checksum_single_field (p : Pkt) :
    (∀ (i : Nat) (b : Byte), i < 20 → b ≠ p.payload.val.getD i 0 →
      ComputeChecksum { p with payload := p.payload.put i b } ≠ ComputeChecksum p ∧
      (p.checksum = ComputeChecksum p →
        IsCorrupted { p with payload := p.payload.put i b } = true)) ∧
    (∀ a : Int, IsInt32 p.seqnum → IsInt32 a → a ≠ p.seqnum →
      ComputeChecksum { p with seqnum := a } ≠ ComputeChecksum p ∧
      (p.checksum = ComputeChecksum p → IsCorrupted { p with seqnum := a } = true)) ∧
    (∀ a : Int, IsInt32 p.acknum → IsInt32 a → a ≠ p.acknum →
      ComputeChecksum { p with acknum := a } ≠ ComputeChecksum p ∧
      (p.checksum = ComputeChecksum p → IsCorrupted { p with acknum := a } = true)) := by
  refine ⟨?_, ?_, ?_⟩
  · intro i b hi hb
    have h := ComputeChecksum_put_ne p i hi b hb
    refine ⟨h, fun hp => ?_⟩
    rw [IsCorrupted_eq_true]
    show p.checksum ≠ ComputeChecksum { p with payload := p.payload.put i b }
    rw [hp]; exact fun e => h e.symm
  · intro a hp ha hne
    have h := ComputeChecksum_seqnum_ne p a hp ha hne
    refine ⟨h, fun hp => ?_⟩
    rw [IsCorrupted_eq_true]
    show p.checksum ≠ ComputeChecksum { p with seqnum := a }
    rw [hp]; exact fun e => h e.symm
  · intro a hp ha hne
    have h := ComputeChecksum_acknum_ne p a hp ha hne
    refine ⟨h, fun hp => ?_⟩
    rw [IsCorrupted_eq_true]
    show p.checksum ≠ ComputeChecksum { p with acknum := a }
    rw [hp]; exact fun e => h e.symm

/-- Witness for C17: in packet 0 of the letter stream, payload byte 7 becomes
`'Z'`, or `seqnum` becomes 999999, or `acknum` becomes 999999. -/
theorem checksum_single_field_witness :
    IsCorrupted { letterStream 0 with payload := (letterStream 0).payload.put 7 90 } = true ∧
    IsCorrupted { letterStream 0 with seqnum := 999999 } = true ∧
    IsCorrupted { letterStream 0 with acknum := 999999 } = true :=
  ⟨((checksum_single_field (letterStream 0)).1 7 90 (by decide) (by decide)).2 (by decide),
   ((checksum_single_field (letterStream 0)).2.1 999999 (by decide) (by decide)
      (by decide)).2 (by decide),
   ((checksum_single_field (letterStream 0)).2.2 999999 (by decide) (by decide)
      (by decide)).2 (by decide)⟩

/-! ## C16: the acknowledgment map is indexed by sequence numbers -/

/-- C16, the code at the failing input. After six messages, the acknowledgment of
packet 0 and a seventh message, the window holds the packets with sequence
numbers 1 to 6 (all in `[0, SEQSPACE)`).  The receiver's valid acknowledgment
for packet 6 makes `A_input` read `acked[6]`, outside the `WINDOWSIZE` cells of
the map: the first access of the handler is out of bounds. -/
theorem A_input_reads_outside_map :
    (senderAfter slideOneThenSend).map
        (fun s => (s.buffer.val.map Pkt.seqnum, s.windowfirst, s.windowcount))
      = some ([6, 1, 2, 3, 4, 5], 1, 6) ∧
    IsCorrupted (ackFor 6) = false ∧ (ackFor 6).acknum = 6 ∧
    (senderAfter slideOneThenSend).map (fun s => s.acked.rd (ackFor 6).acknum)
      = some .outOfBounds ∧
    (senderAfter slideOneThenSend).map (fun s => A_input s (ackFor 6))
      = some .outOfBounds := by
  refine ⟨?_, ?_, rfl, ?_, ?_⟩ <;> decide!

/-! ## C18: acknowledging the left edge -/

/-- C18, the code at the failing input. After six messages, the acknowledgments
of packets 0 to 5 and a seventh message, one packet is in flight, with sequence
number 6, and every slot of the acknowledgment map is marked.  The map has no
slot 6: reading it is out of bounds, and so is `A_input` on the valid
acknowledgment for 6, which therefore does not decrease `windowcount`. -/
theorem left_edge_not_acknowledgeable :
    (senderAfter drainThenSend).map
        (fun s => (s.windowcount, s.windowfirst, (s.buffer.rd s.windowfirst).bind
          (fun q => .ok q.seqnum)))
      = some (1, 0, .ok 6) ∧
    (senderAfter drainThenSend).map (fun s => s.acked.val)
      = some [true, true, true, true, true, true] ∧
    (senderAfter drainThenSend).map (fun s => s.acked.rd 6) = some .outOfBounds ∧
    IsCorrupted (ackFor 6) = false ∧
    (senderAfter drainThenSend).map (fun s => A_input s (ackFor 6))
      = some .outOfBounds := by
  refine ⟨?_, ?_, ?_, ?_, ?_⟩ <;> decide!

/-! ## Acknowledgments within the bounds of the map -/

/-- The slide loop stays in bounds when `windowfirst` is a buffer index and every
buffered sequence number is an index of the acknowledgment map. -/
theorem slideLoop_in_bounds (buffer : Arr Pkt WINDOWSIZE) (acked : Arr Bool WINDOWSIZE)
    (hbuf : ∀ i : Int, 0 ≤ i → i < WINDOWSIZE →
      ∃ q, buffer.rd i = .ok q ∧ 0 ≤ q.seqnum ∧ q.seqnum < WINDOWSIZE) :
    ∀ (c : Nat) (wf : Int), 0 ≤ wf → wf < WINDOWSIZE →
      ∃ x, slideLoop buffer acked c wf = .ok x := by
  intro c
  induction c with
  | zero => intro wf _ _; exact ⟨_, rfl⟩
  | succ c ih =>
    intro wf h0 h1
    obtain ⟨q, hq, hq0, hq1⟩ := hbuf wf h0 h1
    obtain ⟨a, ha⟩ := Arr.rd_in acked q.seqnum hq0 hq1
    cases a with
    | false => exact ⟨(wf, ((c + 1 : Nat) : Int)), by simp [slideLoop, hq, ha]⟩
    | true =>
      have hnext : Int.tmod (wf + 1) WINDOWSIZE = (wf + 1) % WINDOWSIZE :=
        tmod_of_nonneg _ _ (by omega)
      obtain ⟨x, hx⟩ := ih ((wf + 1) % WINDOWSIZE) (Int.emod_nonneg _ (by decide))
        (Int.emod_lt_of_pos _ (by decide))
      exact ⟨x, by simp only [slideLoop, hq, ha, Res.ok_bind, Bool.not_true,
        Bool.false_eq_true, if_false, hnext, hx]⟩

/-- `A_input` returns when `acknum` and every buffered sequence number are indices
of the acknowledgment map and `windowfirst` is a buffer index. -/
theorem A_input_in_bounds (s : Sender) (p : Pkt)
    (ha0 : 0 ≤ p.acknum) (ha1 : p.acknum < WINDOWSIZE)
    (hw0 : 0 ≤ s.windowfirst) (hw1 : s.windowfirst < WINDOWSIZE)
    (hbuf : ∀ i : Int, 0 ≤ i → i < WINDOWSIZE →
      ∃ q, s.buffer.rd i = .ok q ∧ 0 ≤ q.seqnum ∧ q.seqnum < WINDOWSIZE) :
    A_input s p ≠ .outOfBounds := by
  cases hv : IsCorrupted p with
  | true => simp [A_input, hv]
  | false =>
    obtain ⟨a, ha⟩ := Arr.rd_in s.acked p.acknum ha0 ha1
    cases a with
    | true => simp [A_input, hv, ha]
    | false =>
      obtain ⟨acked1, hw⟩ := Arr.wr_in s.acked p.acknum true ha0 ha1
      obtain ⟨first, hf, _, _⟩ := hbuf s.windowfirst hw0 hw1
      by_cases hfirst : p.acknum = first.seqnum
      · have ha2 := ha
        have hw2 := hw
        rw [hfirst] at ha2 hw2
        by_cases hc : 0 < s.windowcount
        · obtain ⟨x, hx⟩ := slideLoop_in_bounds s.buffer acked1 hbuf s.windowcount.toNat
            s.windowfirst hw0 hw1
          simp [A_input, hv, ha2, hw2, hf, hfirst, hc, hx]
        · simp [A_input, hv, ha2, hw2, hf, hfirst, hc]
      · simp [A_input, hv, ha, hw, hf, hfirst]

/-! ## A full window drained by acknowledgments in any order -/

/-- One valid acknowledgment for a packet of the full window keeps the window in
the shape `SlidPast` and leaves its slot marked. -/
theorem A_input_slidPast (s : Sender) (f : Nat) (p : Pkt) (hinv : SlidPast s f)
    (hv : IsCorrupted p = false) (ha0 : 0 ≤ p.acknum) (ha1 : p.acknum < WINDOWSIZE) :
    ∃ s1 evs f1, A_input s p = .ok (s1, evs) ∧ SlidPast s1 f1 ∧
      s1.acked.rd p.acknum = .ok true ∧
      (∀ j : Int, s.acked.rd j = .ok true → s1.acked.rd j = .ok true) := by
  obtain ⟨hf6, hwf, hwc, hwl, hns, hbuf, hmarked, hnext⟩ := hinv
  have hw0 : 0 ≤ s.windowfirst := by rw [hwf]; exact Int.ofNat_nonneg _
  have hw1 : s.windowfirst < (WINDOWSIZE : Nat) := by rw [hwf]; simp only [WINDOWSIZE]; omega
  have hbufI : ∀ i : Int, 0 ≤ i → i < (WINDOWSIZE : Nat) →
      ∃ q, s.buffer.rd i = .ok q ∧ q.seqnum = i := by
    intro i h0 h1
    obtain ⟨q, hq, hqs⟩ := hbuf i.toNat (by simp only [WINDOWSIZE] at h1; omega)
    rw [Int.toNat_of_nonneg h0] at hq hqs
    exact ⟨q, hq, hqs⟩
  have hdef := A_input_in_bounds s p ha0 ha1 hw0 hw1 (by
    intro i h0 h1
    obtain ⟨q, hq, hqs⟩ := hbufI i h0 h1
    exact ⟨q, hq, by rw [hqs]; exact h0, by rw [hqs]; exact h1⟩)
  rcases A_input_valid s p hv with h | ⟨ha, h⟩ |
    ⟨acked1, first, hnew, hw, hfst, hcases⟩
  · exact absurd h hdef
  · exact ⟨s, [], f, h, ⟨hf6, hwf, hwc, hwl, hns, hbuf, hmarked, hnext⟩, ha,
      fun _ hj => hj⟩
  · have hmono : ∀ j : Int, s.acked.rd j = .ok true → acked1.rd j = .ok true := by
      intro j hj
      by_cases hja : j = p.acknum
      · rw [hja]; exact Arr.rd_wr_same _ _ _ _ hw
      · rw [Arr.rd_wr_other _ _ _ _ _ hw hja]; exact hj
    have hset : acked1.rd p.acknum = .ok true := Arr.rd_wr_same _ _ _ _ hw
    obtain ⟨q0, hq0, hq0s⟩ := hbufI s.windowfirst hw0 hw1
    have hfs : first.seqnum = s.windowfirst := by
      rw [hfst] at hq0; cases hq0; exact hq0s
    rcases hcases with ⟨hne, h⟩ | ⟨hfirst, hle, _⟩ | ⟨hfirst, hc, wf1, wc1, hs, h⟩
    · refine ⟨_, _, f, h, ⟨hf6, hwf, hwc, hwl, hns, hbuf, fun i hi => hmono _ (hmarked i hi),
        fun hlt => ?_⟩, hset, hmono⟩
      have hne2 : ((f : Nat) : Int) ≠ p.acknum := by
        rw [hfs, hwf] at hne
        intro e; apply hne; rw [← e]; omega
      show acked1.rd (f : Int) = .ok false
      rw [Arr.rd_wr_other _ _ _ _ _ hw hne2]
      exact hnext hlt
    · exfalso
      have hf : f = 6 := by omega
      subst hf
      have h0 := hmarked 0 (by decide)
      have ha : p.acknum = ((0 : Nat) : Int) := by rw [hfirst, hfs, hwf]
      rw [ha, h0] at hnew
      cases hnew
    · have hflt : f < 6 := by omega
      have ht : ((s.windowcount.toNat : Nat) : Int) = s.windowcount :=
        Int.toNat_of_nonneg (le_of_lt hc)
      obtain ⟨n, hn, hwc1, hwf1, hall, hstop⟩ := slideLoop_spec _ _ _ _ _ _ hw0 hw1 hs
      rw [ht] at hwc1
      have hnle : f + n ≤ 6 := by omega
      refine ⟨_, _, f + n, h, ⟨hnle, ?_, ?_, hwl, hns, hbuf, ?_, ?_⟩, hset, hmono⟩
      · show wf1 = (((f + n) % 6 : Nat) : Int)
        rw [hwf1, hwf]; simp only [WINDOWSIZE]; omega
      · show wc1 = 6 - ((f + n : Nat) : Int)
        rw [hwc1, hwc]; push_cast; ring
      · intro i hi
        show acked1.rd (i : Int) = .ok true
        by_cases hif : i < f
        · exact hmono _ (hmarked i hif)
        · obtain ⟨q, hq, hqa⟩ := hall (i - f) (by omega)
          have hidx : (s.windowfirst + ((i - f : Nat) : Int)) % (WINDOWSIZE : Int)
              = (i : Int) := by
            rw [hwf]; simp only [WINDOWSIZE]; omega
          rw [hidx] at hq
          obtain ⟨q1, hq1, hq1s⟩ := hbuf i (by omega)
          rw [hq1] at hq; cases hq
          rw [hq1s] at hqa
          exact hqa
      · intro hlt
        show acked1.rd ((f + n : Nat) : Int) = .ok false
        obtain ⟨q, hq, hqa⟩ := hstop (by omega)
        have hidx : (s.windowfirst + (n : Int)) % (WINDOWSIZE : Int)
            = ((f + n : Nat) : Int) := by
          rw [hwf]; simp only [WINDOWSIZE]; omega
        rw [hidx] at hq
        obtain ⟨q1, hq1, hq1s⟩ := hbuf (f + n) hlt
        rw [hq1] at hq; cases hq
        rw [hq1s] at hqa
        exact hqa

/-- A sequence of valid acknowledgments for packets of the full window: every
call returns, the window keeps the shape `SlidPast`, and every acknowledged slot
ends up marked. -/
theorem senderRun_acks (ps : List Pkt) :
    ∀ (s : Sender) (f : Nat), SlidPast s f →
      (∀ p ∈ ps, IsCorrupted p = false ∧ 0 ≤ p.acknum ∧ p.acknum < WINDOWSIZE) →
      ∃ s1 evs f1, senderRun s (ps.map SenderCall.input) = .ok (s1, evs) ∧ SlidPast s1 f1 ∧
        (∀ p ∈ ps, s1.acked.rd p.acknum = .ok true) ∧
        (∀ j : Int, s.acked.rd j = .ok true → s1.acked.rd j = .ok true) := by
  induction ps with
  | nil =>
    intro s f hinv _
    exact ⟨s, [], f, rfl, hinv, by simp, fun _ hj => hj⟩
  | cons p ps ih =>
    intro s f hinv hall
    obtain ⟨hv, ha0, ha1⟩ := hall p (List.mem_cons_self _ _)
    obtain ⟨s1, e1, f1, hstep, hinv1, hset, hmono1⟩ := A_input_slidPast s f p hinv hv ha0 ha1
    obtain ⟨s2, e2, f2, hrun, hinv2, hsets, hmono2⟩ := ih s1 f1 hinv1
      (fun q hq => hall q (List.mem_cons_of_mem _ hq))
    refine ⟨s2, e1 ++ e2, f2, ?_, hinv2, ?_, fun j hj => hmono2 j (hmono1 j hj)⟩
    · simp only [List.map_cons, senderRun, senderStep, hstep, Res.ok_bind, hrun, Res.pure_eq]
    · intro q hq
      rcases List.mem_cons.mp hq with h | h
      · rw [h]; exact hmono2 _ hset
      · exact hsets q h

theorem sixInFlight_slidPast (m0 m1 m2 m3 m4 m5 : Msg) (w : Int) :
    SlidPast { sixInFlight m0 m1 m2 m3 m4 m5 with window_full := w } 0 := by
  refine ⟨by decide, rfl, rfl, rfl, rfl, ?_, fun i hi => absurd hi (Nat.not_lt_zero i),
    fun _ => rfl⟩
  intro i hi
  have hcases : i = 0 ∨ i = 1 ∨ i = 2 ∨ i = 3 ∨ i = 4 ∨ i = 5 := by omega
  rcases hcases with h | h | h | h | h | h <;> subst h <;> exact ⟨_, rfl, rfl⟩

/-! ## C14: the full-window scenario -/

/-- C14. From `A_init` on zeroed storage (every acknowledgment slot unmarked), six
consecutive `A_output` calls, with any messages, transmit six packets with
sequence numbers 0 to 5 and call `starttimer` once, on the first call.  A seventh
`A_output` sends nothing and increments `window_full`.  Then for every order in
which valid acknowledgments with `acknum` 0, 1, 2, 3, 4, 5 are passed to
`A_input`, every call returns and the resulting `windowcount` is 0, and a
following `A_output` is accepted and transmits a packet with sequence number
6. -/
theorem full_window_scenario (m0 m1 m2 m3 m4 m5 m6 m7 : Msg) (acks : List Pkt)
    (hvalid : ∀ p ∈ acks, IsCorrupted p = false)
    (horder : (acks.map Pkt.acknum).Perm [0, 1, 2, 3, 4, 5]) :
    senderRun (A_init senderZero)
        [.output m0, .output m1, .output m2, .output m3, .output m4, .output m5]
      = .ok (sixInFlight m0 m1 m2 m3 m4 m5,
          [Event.tolayer3 .A (mkDataPkt 0 m0), Event.starttimer .A RTT,
           Event.tolayer3 .A (mkDataPkt 1 m1), Event.tolayer3 .A (mkDataPkt 2 m2),
           Event.tolayer3 .A (mkDataPkt 3 m3), Event.tolayer3 .A (mkDataPkt 4 m4),
           Event.tolayer3 .A (mkDataPkt 5 m5)]) ∧
    A_output (sixInFlight m0 m1 m2 m3 m4 m5) m6
      = .ok ({ sixInFlight m0 m1 m2 m3 m4 m5 with window_full := 1 }, []) ∧
    ∃ s1 evs s2,
      senderRun { sixInFlight m0 m1 m2 m3 m4 m5 with window_full := 1 }
          (acks.map SenderCall.input) = .ok (s1, evs) ∧
      s1.windowcount = 0 ∧
      A_output s1 m7
        = .ok (s2, [Event.tolayer3 .A (mkDataPkt 6 m7), Event.starttimer .A RTT]) ∧
      (mkDataPkt 6 m7).seqnum = 6 := by
  refine ⟨rfl, rfl, ?_⟩
  have hmem : ∀ p ∈ acks, p.acknum ∈ [(0 : Int), 1, 2, 3, 4, 5] := fun p hp =>
    horder.subset (List.mem_map_of_mem Pkt.acknum hp)
  have hrange : ∀ p ∈ acks,
      IsCorrupted p = false ∧ 0 ≤ p.acknum ∧ p.acknum < WINDOWSIZE := by
    intro p hp
    have h := hmem p hp
    simp only [List.mem_cons, List.mem_singleton, List.not_mem_nil, or_false] at h
    refine ⟨hvalid p hp, ?_, ?_⟩ <;> rcases h with h | h | h | h | h | h <;> rw [h] <;> decide
  obtain ⟨s1, evs, f1, hrun, hinv, hsets, _⟩ := senderRun_acks acks _ 0
    (sixInFlight_slidPast m0 m1 m2 m3 m4 m5 1) hrange
  obtain ⟨hf6, hwf, hwc, hwl, hns, hbuf, hmarked, hnext⟩ := hinv
  have hall : ∀ a : Int, a ∈ [(0 : Int), 1, 2, 3, 4, 5] → s1.acked.rd a = .ok true := by
    intro a ha
    obtain ⟨p, hp, hpa⟩ := List.mem_map.mp (horder.symm.subset ha)
    rw [← hpa]; exact hsets p hp
  have hf : f1 = 6 := by
    by_contra hne
    have hlt : f1 < 6 := by omega
    have h1 := hnext hlt
    have h2 := hall (f1 : Int) (by
      have hcases : f1 = 0 ∨ f1 = 1 ∨ f1 = 2 ∨ f1 = 3 ∨ f1 = 4 ∨ f1 = 5 := by omega
      rcases hcases with h | h | h | h | h | h <;> subst h <;> simp)
    rw [h1] at h2
    cases h2
  subst hf
  have hwc0 : s1.windowcount = 0 := by rw [hwc]; rfl
  have hidx : Int.tmod (s1.windowlast + 1) WINDOWSIZE = 0 := by rw [hwl]; rfl
  obtain ⟨b, hb⟩ := Arr.wr_in s1.buffer 0 (mkDataPkt 6 m7) (by decide) (by decide)
  refine ⟨s1, evs, ⟨b, s1.windowfirst, 0, 1, 7, s1.acked, s1.window_full, s1.new_ACKs,
    s1.packets_resent⟩, hrun, hwc0, ?_, rfl⟩
  simp only [A_output, hwc0, hidx, hns, hb, Res.ok_bind, Res.pure_eq]
  rfl

/-- Witness for C14: the letter messages, acknowledged in the order
3, 5, 0, 1, 4, 2. -/
theorem full_window_scenario_witness :
    ∃ s1 evs s2,
      senderRun { sixInFlight (letterMsg 0) (letterMsg 1) (letterMsg 2) (letterMsg 3)
            (letterMsg 4) (letterMsg 5) with window_full := 1 }
          ([ackFor 3, ackFor 5, ackFor 0, ackFor 1, ackFor 4, ackFor 2].map SenderCall.input)
        = .ok (s1, evs) ∧
      s1.windowcount = 0 ∧
      A_output s1 (letterMsg 7)
        = .ok (s2, [Event.tolayer3 .A (mkDataPkt 6 (letterMsg 7)), Event.starttimer .A RTT]) := by
  obtain ⟨_, _, s1, evs, s2, h1, h2, h3, _⟩ :=
    full_window_scenario (letterMsg 0) (letterMsg 1) (letterMsg 2) (letterMsg 3) (letterMsg 4)
      (letterMsg 5) (letterMsg 6) (letterMsg 7)
      [ackFor 3, ackFor 5, ackFor 0, ackFor 1, ackFor 4, ackFor 2]
      (by decide) (by decide)
  exact ⟨s1, evs, s2, h1, h2, h3⟩

/-! ## The timer -/

/-- What `A_output` returns: an accepted message, with `starttimer` exactly when
the window was empty, or a rejected one. -/
theorem A_output_events (s s1 : Sender) (message : Msg) (evs : List Event)
    (h : A_output s message = .ok (s1, evs)) :
    (s1.windowcount = s.windowcount + 1 ∧
      evs = Event.tolayer3 .A (mkDataPkt s.A_nextseqnum message) ::
        (if s.windowcount = 0 then [Event.starttimer .A RTT] else [])) ∨
    (s1.windowcount = s.windowcount ∧ evs = []) := by
  simp only [A_output] at h
  by_cases hroom : s.windowcount < WINDOWSIZE
  · left
    have hone : (s.windowcount + 1 = 1) = (s.windowcount = 0) := by
      apply propext; constructor <;> intro h <;> omega
    simp only [hroom, if_true, Res.bind_eq_ok, Res.pure_eq, Res.ok.injEq,
      Prod.mk.injEq, hone] at h
    obtain ⟨b, _, hs1, hev⟩ := h
    exact ⟨by rw [← hs1], hev.symm⟩
  · right
    simp only [hroom, if_false, Res.pure_eq, Res.ok.injEq, Prod.mk.injEq] at h
    exact ⟨by rw [← h.1], h.2.symm⟩

/-- What `A_input` returns: no emulator call and the same `windowcount`, or
`stoptimer` followed by `starttimer` exactly when the new `windowcount` is
positive. -/
theorem A_input_events (s s1 : Sender) (p : Pkt) (evs : List Event)
    (h : A_input s p = .ok (s1, evs)) :
    (s1.windowcount = s.windowcount ∧ evs = []) ∨
    evs = Event.stoptimer .A ::
      (if s1.windowcount > 0 then [Event.starttimer .A RTT] else []) := by
  cases hv : IsCorrupted p with
  | true =>
    simp only [A_input, hv, Bool.not_true, Bool.false_eq_true, if_false, Res.pure_eq,
      Res.ok.injEq, Prod.mk.injEq] at h
    exact Or.inl ⟨by rw [← h.1], h.2.symm⟩
  | false =>
    rcases A_input_valid s p hv with h1 | ⟨_, h1⟩ |
      ⟨acked1, first, _, _, _, (⟨_, h1⟩ | ⟨_, hle, h1⟩ | ⟨_, _, wf1, wc1, _, h1⟩)⟩
    · rw [h1] at h; cases h
    · rw [h1] at h; cases h; exact Or.inl ⟨rfl, rfl⟩
    · rw [h1] at h; cases h; exact Or.inl ⟨rfl, rfl⟩
    · rw [h1] at h; cases h
      right
      have hnot : ¬ s.windowcount > 0 := by omega
      simp [hnot]
    · rw [h1] at h; cases h
      exact Or.inr rfl

/-- After a handler returns, the timer is running exactly when `windowcount` is
positive. -/
theorem timedReach_running (s : Sender) (t : Bool) (h : TimedReach s t) :
    t = true ↔ 0 < s.windowcount := by
  induction h with
  | init s0 => simp [A_init]
  | @output s s1 t evs message _ hstep ih =>
    rcases A_output_events s s1 message evs hstep with ⟨hwc, hev⟩ | ⟨hwc, hev⟩
    · rw [hev, hwc]
      by_cases h0 : s.windowcount = 0
      · simp [h0, timerAfter]
      · simp only [h0, if_false, timerAfter]
        rw [ih]; constructor <;> intro h <;> omega
    · rw [hev, hwc]; exact ih
  | @input s s1 t evs packet _ hstep ih =>
    rcases A_input_events s s1 packet evs hstep with ⟨hwc, hev⟩ | hev
    · rw [hev, hwc]; exact ih
    · rw [hev]
      by_cases h0 : s1.windowcount > 0
      · simp [h0, timerAfter]
      · simp [h0, timerAfter]
  | @timerinterrupt s s1 evs _ hstep ih =>
    simp only [A_timerinterrupt, Res.bind_eq_ok, Res.pure_eq, Res.ok.injEq,
      Prod.mk.injEq] at hstep
    obtain ⟨first, _, hs1, hev⟩ := hstep
    have hpos : 0 < s.windowcount := ih.mp rfl
    rw [← hev, ← hs1]
    simp [hpos, timerAfter]

/-! ## C20: timer discipline -/

/-- C20. With the timer modelled as a boolean that `starttimer` sets, `stoptimer`
clears and a firing clears, and `A_timerinterrupt` occurring only while it is
set: in every state reached from `A_init` by `A_output`, `A_input` and
`A_timerinterrupt` the timer is running if and only if `windowcount > 0`, and
in whatever handler call comes next no `starttimer` is called while the timer
is running. -/
theorem timer_discipline (s : Sender) (t : Bool) (h : TimedReach s t) :
    (t = true ↔ 0 < s.windowcount) ∧
    (∀ (message : Msg) (s1 : Sender) (evs : List Event),
      A_output s message = .ok (s1, evs) → startsWhenStopped t evs = true) ∧
    (∀ (packet : Pkt) (s1 : Sender) (evs : List Event),
      A_input s packet = .ok (s1, evs) → startsWhenStopped t evs = true) ∧
    (t = true → ∀ (s1 : Sender) (evs : List Event),
      A_timerinterrupt s = .ok (s1, evs) → startsWhenStopped false evs = true) := by
  have hrun := timedReach_running s t h
  refine ⟨hrun, ?_, ?_, ?_⟩
  · intro message s1 evs hstep
    rcases A_output_events s s1 message evs hstep with ⟨_, hev⟩ | ⟨_, hev⟩
    · rw [hev]
      by_cases h0 : s.windowcount = 0
      · have ht : t = false := by
          cases t with
          | false => rfl
          | true => have := hrun.mp rfl; omega
        simp [h0, ht, startsWhenStopped]
      · simp [h0, startsWhenStopped]
    · rw [hev]; rfl
  · intro packet s1 evs hstep
    rcases A_input_events s s1 packet evs hstep with ⟨_, hev⟩ | hev
    · rw [hev]; rfl
    · rw [hev]
      by_cases h0 : s1.windowcount > 0 <;> simp [h0, startsWhenStopped]
  · intro _ s1 evs hstep
    simp only [A_timerinterrupt, Res.bind_eq_ok, Res.pure_eq, Res.ok.injEq,
      Prod.mk.injEq] at hstep
    obtain ⟨first, _, _, hev⟩ := hstep
    rw [← hev]
    by_cases h0 : s.windowcount > 0 <;> simp [h0, startsWhenStopped]

/-- Witness for C20: the state after `A_init` and one `A_output`, timer running. -/
theorem timer_discipline_witness :
    TimedReach senderOneInFlight true ∧
    (true = true ↔ 0 < senderOneInFlight.windowcount) :=
  have hreach : TimedReach senderOneInFlight true :=
    @TimedReach.output (A_init senderZero) senderOneInFlight false
      [Event.tolayer3 .A (mkDataPkt 0 (fillMsg 97)), Event.starttimer .A RTT]
      (fillMsg 97) (TimedReach.init senderZero) (by decide)
  ⟨hreach, (timer_discipline senderOneInFlight true hreach).1⟩

end SR
